import Mathlib

/-!
Verification of the lightning-toll request-gating engine.

This file gives a shallow embedding, in Lean 4, of the core of the
lightning-toll repository (src/macaroon.js, src/l402.js, src/middleware.js,
src/stats.js) and proves properties of that embedding.

Modelling conventions:
* JavaScript strings are modelled as `List Char` (`JStr`); byte buffers as
  `List Nat` with every byte `< 256` (`Bytes`).  `strBytes` models Node's
  UTF-8 encoding on the ASCII fragment, which is the fragment the library
  manipulates (hex strings, base64url text, HTTP tokens).
* `crypto.createHmac('sha256', k).update(m).digest()` is modelled by a full
  executable SHA-256 / HMAC-SHA-256 implementation over `Bytes`.
* `crypto.timingSafeEqual` throws a `RangeError` when the two buffers have
  different lengths; fallible code is therefore modelled with `Except`.
* `Buffer.from(s, 'hex')` is modelled with Node's actual semantics: decoding
  stops at the first invalid character / incomplete pair (it never throws).
* Wall-clock time (`Date.now()`, milliseconds) is passed explicitly as a
  `Nat` argument.  The check `Date.now() / 1000 > expiresAt` on numbers is
  modelled by the equivalent integer comparison `now > 1000 * expiresAt`.
-/

set_option maxRecDepth 20000

abbrev JStr := List Char

abbrev Bytes := List Nat

/-- Byte string of a JS string (UTF-8 restricted to the ASCII fragment). -/
def strBytes (s : JStr) : Bytes := s.map Char.toNat

/-- Whitespace test used by the model of `String.prototype.trim`. -/
def isWS (c : Char) : Bool := c.isWhitespace

/-- Model of `s.trim()`: drop whitespace from both ends. -/
def trimStr (s : JStr) : JStr :=
  ((s.dropWhile isWS).reverse.dropWhile isWS).reverse

/-- Model of `s.toLowerCase()` on the ASCII fragment. -/
def lowerStr (s : JStr) : JStr := s.map Char.toLower

/-- Model of `s.toUpperCase()` on the ASCII fragment. -/
def upperStr (s : JStr) : JStr := s.map Char.toUpper

/-- Auxiliary splitter: splits on every occurrence of the separator
`s0 :: srest`, like `String.prototype.split` with a non-empty separator.
The first argument is fuel (any value at least the length of the string
works); fuel keeps the recursion structural so that it reduces in the
kernel. -/
def splitOnAux (s0 : Char) (srest : JStr) : Nat → JStr → JStr → List JStr
  | _, [], acc => [acc.reverse]
  | 0, s, acc => [acc.reverse ++ s]
  | fuel + 1, c :: rest, acc =>
    if (s0 :: srest).isPrefixOf (c :: rest) then
      acc.reverse :: splitOnAux s0 srest fuel (rest.drop srest.length) []
    else
      splitOnAux s0 srest fuel rest (c :: acc)

/-- Model of `s.split(sep)` for a non-empty separator (an empty separator is
never used by the library). -/
def splitStr (sep s : JStr) : List JStr :=
  match sep with
  | [] => [s]
  | s0 :: srest => splitOnAux s0 srest s.length s []

/-- Value of a hex digit, accepting both cases (as `Buffer.from(_, 'hex')`
does). -/
def hexDigitVal (c : Char) : Option Nat :=
  if '0' ≤ c ∧ c ≤ '9' then some (c.toNat - 48)
  else if 'a' ≤ c ∧ c ≤ 'f' then some (c.toNat - 87)
  else if 'A' ≤ c ∧ c ≤ 'F' then some (c.toNat - 55)
  else none

/-- Model of `Buffer.from(s, 'hex')`: Node decodes pairs of hex digits and
stops (without an error) at the first invalid character or incomplete pair. -/
def hexDecode : JStr → Bytes
  | c1 :: c2 :: rest =>
    match hexDigitVal c1, hexDigitVal c2 with
    | some hi, some lo => (16 * hi + lo) :: hexDecode rest
    | _, _ => []
  | _ => []

/-- Lowercase hex digit of a value `< 16`. -/
def hexDigitChar (n : Nat) : Char :=
  if n < 10 then Char.ofNat (48 + n) else Char.ofNat (87 + n)

/-- Model of `buf.toString('hex')` (lowercase). -/
def hexEncode : Bytes → JStr
  | [] => []
  | b :: rest => hexDigitChar (b / 16 % 16) :: hexDigitChar (b % 16) :: hexEncode rest

/-- Modelled from the spec: a strict hex decoder ("any hex-decode failure
yields false"), which fails on any invalid character or odd length.  It is
used only to state the specification side of claims; the code itself uses
the forgiving `hexDecode`. -/
def strictHexDecode : JStr → Option Bytes
  | [] => some []
  | [_] => none
  | c1 :: c2 :: rest =>
    match hexDigitVal c1, hexDigitVal c2, strictHexDecode rest with
    | some hi, some lo, some bs => some ((16 * hi + lo) :: bs)
    | _, _, _ => none

/-- Decimal digits, least significant first, with fuel (any fuel at least
the value itself works; fuel keeps the recursion structural). -/
def natDigitsRevAux : Nat → Nat → List Nat
  | 0, n => [n]
  | fuel + 1, n => if n < 10 then [n] else n % 10 :: natDigitsRevAux fuel (n / 10)

/-- Decimal digits of `n`, least significant first. -/
def natDigitsRev (n : Nat) : List Nat := natDigitsRevAux n n

/-- Model of JS number-to-string conversion for a nonnegative integer
(as in the template literal `expires_at = ${opts.expiresAt}`). -/
def natToStr (n : Nat) : JStr :=
  (natDigitsRev n).reverse.map (fun d => Char.ofNat (48 + d))

/-- Value of a list of decimal digits, most significant first. -/
def digitsVal (ds : List Nat) : Nat := ds.foldl (fun a d => 10 * a + d) 0

/-- Model of `parseInt(s, 10)`: skip leading whitespace, optional sign,
then a maximal run of decimal digits; no digits gives `none` (JS `NaN`). -/
def parseIntJS (s : JStr) : Option Int :=
  let t := s.dropWhile isWS
  let neg : Bool := t.headD ' ' = '-'
  let t2 := if t.headD ' ' = '-' ∨ t.headD ' ' = '+' then t.tail else t
  let ds := t2.takeWhile Char.isDigit
  if ds.isEmpty then none
  else some ((if neg then (-1 : Int) else 1) * (digitsVal (ds.map (fun c => c.toNat - 48)) : Int))

/-! ## SHA-256 and HMAC-SHA-256

A direct executable model of `crypto.createHash('sha256')` /
`crypto.createHmac('sha256', key)` over byte lists, with 32-bit words
represented as `Nat` reduced modulo `2^32` (4294967296). -/

/-- Right rotation of a 32-bit word (the word is assumed `< 2^32`). -/
def rotr32 (n w : Nat) : Nat := w / 2 ^ n + w % 2 ^ n * 2 ^ (32 - n)

/-- Working state (or chaining value) of SHA-256: eight 32-bit words. -/
structure Sha256State where
  a : Nat
  b : Nat
  c : Nat
  d : Nat
  e : Nat
  f : Nat
  g : Nat
  h : Nat
deriving DecidableEq

/-- Initial SHA-256 chaining value. -/
def sha256Init : Sha256State :=
  ⟨1779033703, 3144134277, 1013904242, 2773480762,
    1359893119, 2600822924, 528734635, 1541459225⟩

/-- Round constants of SHA-256. -/
def sha256K : List Nat :=
  [1116352408, 1899447441, 3049323471, 3921009573, 961987163, 1508970993,
   2453635748, 2870763221, 3624381080, 310598401, 607225278, 1426881987,
   1925078388, 2162078206, 2614888103, 3248222580, 3835390401, 4022224774,
   264347078, 604807628, 770255983, 1249150122, 1555081692, 1996064986,
   2554220882, 2821834349, 2952996808, 3210313671, 3336571891, 3584528711,
   113926993, 338241895, 666307205, 773529912, 1294757372, 1396182291,
   1695183700, 1986661051, 2177026350, 2456956037, 2730485921, 2820302411,
   3259730800, 3345764771, 3516065817, 3600352804, 4094571909, 275423344,
   430227734, 506948616, 659060556, 883997877, 958139571, 1322822218,
   1537002063, 1747873779, 1955562222, 2024104815, 2227730452, 2361852424,
   2428436474, 2756734187, 3204031479, 3329325298]

/-- One SHA-256 round, folding in one round constant and one schedule word. -/
def sha256Round (s : Sha256State) (kw : Nat × Nat) : Sha256State :=
  let s1 := (rotr32 6 s.e) ^^^ (rotr32 11 s.e) ^^^ (rotr32 25 s.e)
  let ch := (s.e &&& s.f) ^^^ ((s.e ^^^ 4294967295) &&& s.g)
  let t1 := (s.h + s1 + ch + kw.1 + kw.2) % 4294967296
  let s0 := (rotr32 2 s.a) ^^^ (rotr32 13 s.a) ^^^ (rotr32 22 s.a)
  let maj := (s.a &&& s.b) ^^^ (s.a &&& s.c) ^^^ (s.b &&& s.c)
  let t2 := (s0 + maj) % 4294967296
  ⟨(t1 + t2) % 4294967296, s.a, s.b, s.c, (s.d + t1) % 4294967296, s.e, s.f, s.g⟩

/-- Message-schedule extension: append `k` further schedule words. -/
def extendSchedule : Nat → List Nat → List Nat
  | 0, ws => ws
  | k + 1, ws =>
    let i := ws.length
    let w15 := ws.getD (i - 15) 0
    let w2 := ws.getD (i - 2) 0
    let s0 := (rotr32 7 w15) ^^^ (rotr32 18 w15) ^^^ (w15 / 8)
    let s1 := (rotr32 17 w2) ^^^ (rotr32 19 w2) ^^^ (w2 / 1024)
    let w := (ws.getD (i - 16) 0 + s0 + ws.getD (i - 7) 0 + s1) % 4294967296
    extendSchedule k (ws ++ [w])

/-- SHA-256 compression function on one 16-word block. -/
def compressBlock (st : Sha256State) (block : List Nat) : Sha256State :=
  let ws := extendSchedule 48 block
  let r := (sha256K.zip ws).foldl sha256Round st
  ⟨(st.a + r.a) % 4294967296, (st.b + r.b) % 4294967296,
    (st.c + r.c) % 4294967296, (st.d + r.d) % 4294967296,
    (st.e + r.e) % 4294967296, (st.f + r.f) % 4294967296,
    (st.g + r.g) % 4294967296, (st.h + r.h) % 4294967296⟩

/-- Group bytes into big-endian 32-bit words. -/
def bytesToWords : Bytes → List Nat
  | b0 :: b1 :: b2 :: b3 :: rest =>
    (((b0 * 256 + b1) * 256 + b2) * 256 + b3) :: bytesToWords rest
  | _ => []

/-- Split a byte list into 64-byte chunks, with fuel (any fuel at least the
number of chunks works; fuel keeps the recursion structural). -/
def chunk64Aux : Nat → Bytes → List Bytes
  | _, [] => []
  | 0, l => [l]
  | fuel + 1, b :: rest => ((b :: rest).take 64) :: chunk64Aux fuel ((b :: rest).drop 64)

/-- Split a byte list into 64-byte chunks. -/
def chunk64 (l : Bytes) : List Bytes := chunk64Aux l.length l

/-- Big-endian 4-byte serialization of a 32-bit word. -/
def wordBytesBE (w : Nat) : Bytes :=
  [w / 16777216 % 256, w / 65536 % 256, w / 256 % 256, w % 256]

/-- Big-endian 8-byte serialization of the 64-bit message bit length. -/
def len64be (n : Nat) : Bytes :=
  [n / 2 ^ 56 % 256, n / 2 ^ 48 % 256, n / 2 ^ 40 % 256, n / 2 ^ 32 % 256,
   n / 2 ^ 24 % 256, n / 2 ^ 16 % 256, n / 2 ^ 8 % 256, n % 256]

/-- SHA-256 padding: append `0x80`, zero bytes to 56 mod 64, then the
64-bit big-endian bit length. -/
def padMessage (m : Bytes) : Bytes :=
  let l := m.length
  let z := (120 - (l + 1) % 64) % 64
  m ++ 128 :: (List.replicate z 0 ++ len64be (8 * l))

/-- SHA-256 of a byte list. -/
def sha256 (m : Bytes) : Bytes :=
  let st := ((chunk64 (padMessage m)).map bytesToWords).foldl compressBlock sha256Init
  wordBytesBE st.a ++ wordBytesBE st.b ++ wordBytesBE st.c ++ wordBytesBE st.d ++
    wordBytesBE st.e ++ wordBytesBE st.f ++ wordBytesBE st.g ++ wordBytesBE st.h

/-- HMAC-SHA-256 (FIPS 198-1) with block size 64. -/
def hmacSHA256 (key msg : Bytes) : Bytes :=
  let k0 := if 64 < key.length then sha256 key else key
  let kp := k0 ++ List.replicate (64 - k0.length) 0
  sha256 ((kp.map (fun b => b ^^^ 92)) ++ sha256 ((kp.map (fun b => b ^^^ 54)) ++ msg))

/-! ## Macaroon codec (src/macaroon.js) -/

/-- Model of `crypto.timingSafeEqual(a, b)`: throws a `RangeError` when the
buffers have different lengths, otherwise compares them. -/
def timingSafeEqual (a b : Bytes) : Except JStr Bool :=
  if a.length = b.length then .ok (a == b)
  else .error "Input buffers must have the same byte length".data

/-- Decoded macaroon with well-typed fields, as produced by `createMacaroon`
and consumed by `verifyMacaroon`. -/
structure Macaroon where
  id : JStr
  caveats : List JStr
  signature : JStr
deriving DecidableEq

/-- Options of `createMacaroon` (absent optional fields are `none`; the
JS falsy values `''` and `0` are handled explicitly where the source tests
truthiness). -/
structure MintOpts where
  paymentHash : JStr
  expiresAt : Option Nat
  endpoint : Option JStr
  method : Option JStr
  ip : Option JStr

/-- Optional string caveat of `createMacaroon`: pushed only when the field
is present and truthy (non-empty). -/
def optCaveat (key : JStr) (v : Option JStr) : List JStr :=
  match v with
  | some e => if e.isEmpty then [] else [key ++ " = ".data ++ e]
  | none => []

/-- Expiry caveat of `createMacaroon`: pushed only when `expiresAt` is
present and truthy (non-zero). -/
def expCaveat (t : Option Nat) : List JStr :=
  match t with
  | some t => if t = 0 then [] else ["expires_at = ".data ++ natToStr t]
  | none => []

/-- Caveat assembly of `createMacaroon`: fixed order `expires_at`,
`endpoint`, `method`, `ip`, skipping absent (or JS-falsy) fields. -/
def mintCaveats (o : MintOpts) : List JStr :=
  expCaveat o.expiresAt ++ optCaveat "endpoint".data o.endpoint ++
    optCaveat "method".data o.method ++ optCaveat "ip".data o.ip

/-- Chained HMAC of `createMacaroon` / `verifyMacaroon`:
`sig0 = HMAC(secret, id)`, then each caveat is folded in. -/
def chainSig (secret id : JStr) (caveats : List JStr) : Bytes :=
  caveats.foldl (fun sig c => hmacSHA256 sig (strBytes c)) (hmacSHA256 (strBytes secret) (strBytes id))

/-! ### JSON values and the serialized form -/

/-- JS values reachable through `JSON.parse`, plus `undefVal` for the result of
reading an absent property. -/
inductive JsValue where
  | undefVal : JsValue
  | null : JsValue
  | bool : Bool → JsValue
  | num : Int → JsValue
  | str : JStr → JsValue
  | arr : List JsValue → JsValue
  | obj : List (JStr × JsValue) → JsValue
deriving BEq

/-- Characters that JSON.parse treats as whitespace. -/
def skipJsonWS (s : JStr) : JStr :=
  s.dropWhile (fun c => c = ' ' ∨ c = '\t' ∨ c = '\n' ∨ c = '\r')

/-- Escape of one character inside a JSON string literal, as
`JSON.stringify` produces it. -/
def escapeJsonChar (c : Char) : JStr :=
  if c = '"' then ['\\', '"']
  else if c = '\\' then ['\\', '\\']
  else if c = '\x08' then ['\\', 'b']
  else if c = '\t' then ['\\', 't']
  else if c = '\n' then ['\\', 'n']
  else if c = '\x0c' then ['\\', 'f']
  else if c = '\r' then ['\\', 'r']
  else if c.toNat < 32 then
    "\\u00".data ++ [hexDigitChar (c.toNat / 16), hexDigitChar (c.toNat % 16)]
  else [c]

/-- Body of a JSON string literal. -/
def escapeJsonStr (s : JStr) : JStr := s.foldr (fun c acc => escapeJsonChar c ++ acc) []

/-- Decimal representation of an integer (used for JSON number output). -/
def intToStr (i : Int) : JStr :=
  if i < 0 then '-' :: natToStr i.natAbs else natToStr i.natAbs

mutual

/-- Model of `JSON.stringify` (restricted to the value shapes the library
serializes: numbers are integers; `undefined` never occurs in serialized
positions). -/
def jsonStringify : JsValue → JStr
  | .undefVal => "null".data
  | .null => "null".data
  | .bool true => "true".data
  | .bool false => "false".data
  | .num i => intToStr i
  | .str s => '"' :: (escapeJsonStr s ++ ['"'])
  | .arr vs => '[' :: (jsonStringifyItems vs ++ [']'])
  | .obj fs => Char.ofNat 123 :: (jsonStringifyFields fs ++ [Char.ofNat 125])

/-- Comma-separated serialization of array items. -/
def jsonStringifyItems : List JsValue → JStr
  | [] => []
  | [v] => jsonStringify v
  | v :: rest => jsonStringify v ++ ',' :: jsonStringifyItems rest

/-- Comma-separated serialization of object fields. -/
def jsonStringifyFields : List (JStr × JsValue) → JStr
  | [] => []
  | [(k, v)] => '"' :: (escapeJsonStr k ++ '"' :: ':' :: jsonStringify v)
  | (k, v) :: rest =>
    ('"' :: (escapeJsonStr k ++ '"' :: ':' :: jsonStringify v)) ++ ',' :: jsonStringifyFields rest

end

/-- Parse of a JSON string literal body (after the opening quote); returns
the string and the rest of the input past the closing quote. -/
def parseJsonStr : JStr → Option (JStr × JStr)
  | '"' :: rest => some ([], rest)
  | '\\' :: 'u' :: h1 :: h2 :: h3 :: h4 :: rest =>
    (match hexDigitVal h1, hexDigitVal h2, hexDigitVal h3, hexDigitVal h4 with
     | some a, some b, some c, some d =>
       (parseJsonStr rest).map
         (fun p : JStr × JStr => (Char.ofNat (((a * 16 + b) * 16 + c) * 16 + d) :: p.1, p.2))
     | _, _, _, _ => none)
  | '\\' :: e :: rest =>
    (match e with
     | '"' => some '"'
     | '\\' => some '\\'
     | '/' => some '/'
     | 'b' => some '\x08'
     | 'f' => some '\x0c'
     | 'n' => some '\n'
     | 'r' => some '\r'
     | 't' => some '\t'
     | _ => none).bind
      (fun c => (parseJsonStr rest).map (fun p : JStr × JStr => (c :: p.1, p.2)))
  | c :: rest =>
    if c.toNat < 32 then none
    else (parseJsonStr rest).map (fun p : JStr × JStr => (c :: p.1, p.2))
  | [] => none

/-- Parse of a JSON number restricted to optionally signed integers
(`JSON.parse` also accepts fractions and exponents, which the library never
produces; the model rejects them). -/
def parseJsonInt (s : JStr) : Option (Int × JStr) :=
  let signVal : Int × JStr :=
    match s with
    | '-' :: r => (-1, r)
    | _ => (1, s)
  let ds := signVal.2.takeWhile Char.isDigit
  let rest := signVal.2.drop ds.length
  if ds.isEmpty then none
  else if 1 < ds.length ∧ ds.headD '0' = '0' then none
  else some (signVal.1 * (digitsVal (ds.map (fun c => c.toNat - 48)) : Int), rest)

mutual

/-- Fuel-indexed recursive-descent parse of a JSON value; returns the value
and the unconsumed rest. -/
def parseJsonValue : Nat → JStr → Option (JsValue × JStr)
  | 0, _ => none
  | fuel + 1, s =>
    match skipJsonWS s with
    | 'n' :: 'u' :: 'l' :: 'l' :: r => some (.null, r)
    | 't' :: 'r' :: 'u' :: 'e' :: r => some (.bool true, r)
    | 'f' :: 'a' :: 'l' :: 's' :: 'e' :: r => some (.bool false, r)
    | '"' :: r => (parseJsonStr r).map (fun p => (.str p.1, p.2))
    | '[' :: r =>
      (match skipJsonWS r with
       | ']' :: r2 => some (.arr [], r2)
       | _ => (parseJsonItems fuel r).map (fun p => (.arr p.1, p.2)))
    | c :: r =>
      if c = Char.ofNat 123 then
        (match skipJsonWS r with
         | c2 :: r2 => if c2 = Char.ofNat 125 then some (.obj [], r2) else
            (parseJsonFields fuel r).map (fun p => (.obj p.1, p.2))
         | [] => none)
      else (parseJsonInt (c :: r)).map (fun p => (.num p.1, p.2))
    | [] => none

/-- Parse of one or more comma-separated array items followed by a closing
bracket. -/
def parseJsonItems : Nat → JStr → Option (List JsValue × JStr)
  | 0, _ => none
  | fuel + 1, s =>
    (parseJsonValue fuel s).bind (fun p =>
      match skipJsonWS p.2 with
      | ',' :: r => (parseJsonItems fuel r).map (fun q => (p.1 :: q.1, q.2))
      | ']' :: r => some ([p.1], r)
      | _ => none)

/-- Parse of one or more comma-separated object fields followed by a closing
brace. -/
def parseJsonFields : Nat → JStr → Option (List (JStr × JsValue) × JStr)
  | 0, _ => none
  | fuel + 1, s =>
    match skipJsonWS s with
    | '"' :: r =>
      (parseJsonStr r).bind (fun pk =>
        match skipJsonWS pk.2 with
        | ':' :: r2 =>
          (parseJsonValue fuel r2).bind (fun pv =>
            match skipJsonWS pv.2 with
            | ',' :: r3 => (parseJsonFields fuel r3).map (fun q => ((pk.1, pv.1) :: q.1, q.2))
            | c :: r3 => if c = Char.ofNat 125 then some ([(pk.1, pv.1)], r3) else none
            | [] => none)
        | _ => none)
    | _ => none

end

/-- Model of `JSON.parse`: parse one value and require only whitespace to
remain.  The fuel `2 * length + 4` is ample, since every nested
value consumes input. -/
def jsonParse (s : JStr) : Option JsValue :=
  match parseJsonValue (2 * s.length + 4) s with
  | some (v, rest) => if (skipJsonWS rest).isEmpty then some v else none
  | none => none

/-- Model of reading a property: `v[k]` for the parsed JSON value; reading
from a non-object (or an absent key) gives `undefVal`.  Later duplicate keys
override earlier ones, as in `JSON.parse`. -/
def getField (v : JsValue) (k : JStr) : JsValue :=
  match v with
  | .obj fs => fs.foldl (fun acc p => if p.1 = k then p.2 else acc) .undefVal
  | _ => .undefVal

/-- JS truthiness of a `JsValue`. -/
def jsTruthy : JsValue → Bool
  | .undefVal => false
  | .null => false
  | .bool b => b
  | .num n => n != 0
  | .str s => !s.isEmpty
  | .arr _ => true
  | .obj _ => true

/-- Model of `Array.isArray`. -/
def jsIsArray : JsValue → Bool
  | .arr _ => true
  | _ => false

/-! ### base64url -/

/-- Alphabet of base64url. -/
def b64Alphabet : JStr :=
  "ABCDEFGHIJKLMNOPQRSTUVWXYZabcdefghijklmnopqrstuvwxyz0123456789-_".data

/-- Character of a 6-bit value. -/
def b64Char (n : Nat) : Char := b64Alphabet.getD n 'A'

/-- Model of `buf.toString('base64url')` (unpadded). -/
def base64urlEncode : Bytes → JStr
  | b0 :: b1 :: b2 :: rest =>
    b64Char (b0 / 4) :: b64Char (b0 % 4 * 16 + b1 / 16) ::
      b64Char (b1 % 16 * 4 + b2 / 64) :: b64Char (b2 % 64) :: base64urlEncode rest
  | [b0, b1] => [b64Char (b0 / 4), b64Char (b0 % 4 * 16 + b1 / 16), b64Char (b1 % 16 * 4)]
  | [b0] => [b64Char (b0 / 4), b64Char (b0 % 4 * 16)]
  | [] => []

/-- Value of a base64 character (both the url-safe and the standard
alphabet, as Node accepts either). -/
def b64Val (c : Char) : Option Nat :=
  if 'A' ≤ c ∧ c ≤ 'Z' then some (c.toNat - 65)
  else if 'a' ≤ c ∧ c ≤ 'z' then some (c.toNat - 71)
  else if '0' ≤ c ∧ c ≤ '9' then some (c.toNat + 4)
  else if c = '-' ∨ c = '+' then some 62
  else if c = '_' ∨ c = '/' then some 63
  else none

/-- Reassembly of bytes from 6-bit values. -/
def b64Groups : List Nat → Bytes
  | v0 :: v1 :: v2 :: v3 :: rest =>
    (v0 * 4 + v1 / 16) :: (v1 % 16 * 16 + v2 / 4) :: (v2 % 4 * 64 + v3) :: b64Groups rest
  | [v0, v1, v2] => [v0 * 4 + v1 / 16, v1 % 16 * 16 + v2 / 4]
  | [v0, v1] => [v0 * 4 + v1 / 16]
  | _ => []

/-- Model of `Buffer.from(s, 'base64url')`: non-alphabet characters are
ignored, a trailing group shorter than 4 contributes its complete bytes. -/
def base64urlDecode (s : JStr) : Bytes := b64Groups (s.filterMap b64Val)

/-- JSON payload `{id, caveats, signature}` serialized into a macaroon. -/
def macPayload (id : JStr) (caveats : List JStr) (signature : JStr) : JsValue :=
  .obj [("id".data, .str id), ("caveats".data, .arr (caveats.map .str)),
        ("signature".data, .str signature)]

/-- Minted macaroon: the components plus the serialized transport form. -/
structure MintedMacaroon where
  id : JStr
  caveats : List JStr
  signature : JStr
  raw : JStr

/-- Model of `createMacaroon(secret, opts)`.  The two loud failures of the
source (missing secret, missing payment hash) are modelled with `Except`. -/
def createMacaroon (secret : JStr) (o : MintOpts) : Except JStr MintedMacaroon :=
  if secret.isEmpty then .error "Macaroon secret is required".data
  else if o.paymentHash.isEmpty then .error "paymentHash is required for macaroon".data
  else
    let caveats := mintCaveats o
    let signature := hexEncode (chainSig secret o.paymentHash caveats)
    let raw := base64urlEncode (strBytes (jsonStringify (macPayload o.paymentHash caveats signature)))
    .ok ⟨o.paymentHash, caveats, signature, raw⟩

/-- Model of `decodeMacaroon(raw)`: base64url-decode, `JSON.parse`, then the
truthiness checks of the source (`!parsed.id || !parsed.signature ||
!Array.isArray(parsed.caveats)`).  Every failure (including an exception
from the parse, or from reading a property of `null`) yields `none`. -/
def decodeMacaroon (raw : JStr) : Option JsValue :=
  match jsonParse ((base64urlDecode raw).map Char.ofNat) with
  | none => none
  | some parsed =>
    if jsTruthy (getField parsed "id".data) && jsTruthy (getField parsed "signature".data)
        && jsIsArray (getField parsed "caveats".data) then
      some parsed
    else none

/-! ### Verification -/

/-- Request context of `verifyMacaroon` (a `none` or empty field disables
the corresponding check, as JS truthiness does). -/
structure VerifyContext where
  endpoint : Option JStr
  method : Option JStr
  ip : Option JStr

/-- Result object of `verifyMacaroon`. -/
structure VerifyResult where
  valid : Bool
  error : Option JStr
  paymentHash : Option JStr
deriving DecidableEq

/-- Truthiness of an optional string context field. -/
def optStrTruthy : Option JStr → Bool
  | some s => !s.isEmpty
  | none => false

/-- Caveat loop of `verifyMacaroon`: each caveat is split on `" = "` with
limit 2 (so the value is truncated at the next `" = "`), then dispatched on
the trimmed key; unknown keys are ignored. -/
def checkCaveats (ctx : VerifyContext) (now : Nat) (id : JStr) : List JStr → VerifyResult
  | [] => ⟨true, none, some id⟩
  | cav :: rest =>
    match splitStr " = ".data cav with
    | [] => ⟨false, some ("Malformed caveat: ".data ++ cav), some id⟩
    | [_] => ⟨false, some ("Malformed caveat: ".data ++ cav), some id⟩
    | k :: v :: _ =>
      if k.isEmpty then ⟨false, some ("Malformed caveat: ".data ++ cav), some id⟩
      else if trimStr k = "expires_at".data then
        match parseIntJS (trimStr v) with
        | none => checkCaveats ctx now id rest
        | some t =>
          if (now : Int) > 1000 * t then ⟨false, some "Macaroon expired".data, some id⟩
          else checkCaveats ctx now id rest
      else if trimStr k = "endpoint".data then
        if optStrTruthy ctx.endpoint ∧ ctx.endpoint.getD [] ≠ trimStr v then
          ⟨false, some ("Endpoint mismatch: expected ".data ++ trimStr v ++ ", got ".data ++ ctx.endpoint.getD []), some id⟩
        else checkCaveats ctx now id rest
      else if trimStr k = "method".data then
        if optStrTruthy ctx.method ∧ upperStr (ctx.method.getD []) ≠ upperStr (trimStr v) then
          ⟨false, some ("Method mismatch: expected ".data ++ trimStr v ++ ", got ".data ++ ctx.method.getD []), some id⟩
        else checkCaveats ctx now id rest
      else if trimStr k = "ip".data then
        if optStrTruthy ctx.ip ∧ ctx.ip.getD [] ≠ trimStr v then
          ⟨false, some ("IP mismatch: expected ".data ++ trimStr v ++ ", got ".data ++ ctx.ip.getD []), some id⟩
        else checkCaveats ctx now id rest
      else checkCaveats ctx now id rest

/-- Model of `verifyMacaroon(secret, macaroon, context)` at wall time `now`
(milliseconds).  The `timingSafeEqual` call is outside any try/catch in the
source, so a length mismatch of the two buffers propagates as a thrown
`RangeError`, modelled by `Except.error`. -/
def verifyMacaroon (secret : JStr) (mac : Macaroon) (ctx : VerifyContext) (now : Nat) :
    Except JStr VerifyResult :=
  if mac.id.isEmpty ∨ mac.signature.isEmpty then
    .ok ⟨false, some "Invalid macaroon structure".data, none⟩
  else
    let expectedSig := hexEncode (chainSig secret mac.id mac.caveats)
    match timingSafeEqual (hexDecode mac.signature) (hexDecode expectedSig) with
    | .error e => .error e
    | .ok eq =>
      if !eq then .ok ⟨false, some "Invalid macaroon signature".data, some mac.id⟩
      else .ok (checkCaveats ctx now mac.id mac.caveats)

/-- Model of `verifyPreimage(preimage, paymentHash)`: guarded by JS
truthiness, then `SHA256` of the hex-decoded preimage is hex-encoded and
compared with `timingSafeEqual`; the try/catch turns any exception into
`false`. -/
def verifyPreimage (preimage paymentHash : JStr) : Bool :=
  if preimage.isEmpty ∨ paymentHash.isEmpty then false
  else
    match timingSafeEqual (hexDecode (hexEncode (sha256 (hexDecode preimage))))
        (hexDecode paymentHash) with
    | .ok b => b
    | .error _ => false

/-! ## L402 wire format (src/l402.js) -/

/-- Parsed L402 credentials. -/
structure L402Creds where
  macaroon : JStr
  preimage : JStr
deriving DecidableEq

/-- Model of `formatChallenge(invoice, macaroon)`. -/
def formatChallenge (invoice macaroon : JStr) : JStr :=
  "L402 invoice=\"".data ++ invoice ++ "\", macaroon=\"".data ++ macaroon ++ ['"']

/-- Body object of the 402 challenge (the three fixed instruction strings
are left out of the model). -/
structure ChallengeBody where
  status : Nat
  message : JStr
  paymentHash : JStr
  invoice : JStr
  macaroon : JStr
  amountSats : Nat
  description : Option JStr
  protocol : JStr

/-- Model of `formatChallengeBody(opts)` (`opts.description || null`). -/
def formatChallengeBody (invoice macaroon paymentHash : JStr) (amountSats : Nat)
    (description : Option JStr) : ChallengeBody :=
  ⟨402, "Payment Required".data, paymentHash, invoice, macaroon, amountSats,
    (match description with
     | some d => if d.isEmpty then none else some d
     | none => none),
    "L402".data⟩

/-- Model of `parseAuthorization(authHeader)`: trim, case-insensitive
`l402 ` scheme check, slice off the scheme, trim, split at the first `:`,
and require both halves non-empty. -/
def parseAuthorization : Option JStr → Option L402Creds
  | none => none
  | some authHeader =>
    let trimmed := trimStr authHeader
    if ¬ ("l402 ".data.isPrefixOf (lowerStr trimmed)) then none
    else
      let credentials := trimStr (trimmed.drop 5)
      let mac := credentials.takeWhile (fun c => c ≠ ':')
      if mac.length = credentials.length then none
      else
        let preimage := credentials.drop (mac.length + 1)
        if mac.isEmpty ∨ preimage.isEmpty then none
        else some ⟨mac, preimage⟩

/-! ## Free-tier accountant (src/middleware.js, checkFreeTier) -/

/-- Entry of the free-tier map. -/
structure FtEntry where
  count : Nat
  windowStart : Nat
deriving DecidableEq

/-- Insertion-ordered association map (models a JS `Map`): update in place
or append. -/
def updAssoc {K V : Type} [DecidableEq K] : List (K × V) → K → V → List (K × V)
  | [], k, v => [(k, v)]
  | (k0, v0) :: rest, k, v =>
    if k0 = k then (k, v) :: rest else (k0, v0) :: updAssoc rest k v

/-- Lookup in an association map. -/
def lookupAssoc {K V : Type} [DecidableEq K] : List (K × V) → K → Option V
  | [], _ => none
  | (k0, v0) :: rest, k => if k0 = k then some v0 else lookupAssoc rest k

abbrev FtMap := List (JStr × FtEntry)

/-- Model of `checkFreeTier(clientId)` at wall time `now`: reset the entry
when absent or when `now - windowStart > freeWindowMs`, then admit iff
`count < freeRequests`, incrementing on admission.  The map is returned
along with the decision. -/
def checkFreeTier (freeRequests windowMs : Nat) (m : FtMap) (clientId : JStr) (now : Nat) :
    FtMap × Bool :=
  if freeRequests = 0 then (m, false)
  else
    let entry :=
      match lookupAssoc m clientId with
      | none => FtEntry.mk 0 now
      | some e => if (windowMs : Int) < (now : Int) - (e.windowStart : Int) then ⟨0, now⟩ else e
    if entry.count < freeRequests then
      (updAssoc m clientId ⟨entry.count + 1, entry.windowStart⟩, true)
    else
      (updAssoc m clientId entry, false)

/-- Run of a sequence of `checkFreeTier` calls `(clientId, now)`, returning
the final map and the log `(clientId, now, admitted)`. -/
def runFreeTier (fr W : Nat) : FtMap → List (JStr × Nat) → FtMap × List (JStr × Nat × Bool)
  | m, [] => (m, [])
  | m, (c, t) :: rest =>
    let s := checkFreeTier fr W m c t
    let r := runFreeTier fr W s.1 rest
    (r.1, (c, t, s.2) :: r.2)

/-! ## Stats recorder (src/stats.js) -/

/-- Per-endpoint counters. -/
structure EpStat where
  revenue : Nat
  requests : Nat
  paid : Nat
  free : Nat
deriving DecidableEq

/-- Entry of the recent-payments buffer. -/
structure PayRec where
  endpoint : JStr
  amountSats : Nat
  payerId : JStr
  paymentHash : Option JStr
  timestamp : Nat
deriving DecidableEq

/-- State of a `TollStats` instance. -/
structure TollStats where
  maxRecent : Nat
  totalRevenue : Nat
  totalRequests : Nat
  totalPaid : Nat
  endpoints : List (JStr × EpStat)
  payers : List JStr
  recentPayments : List PayRec
deriving DecidableEq

/-- Fresh `TollStats` (constructor with `maxRecent`, default 100 in JS). -/
def freshStats (maxRecent : Nat) : TollStats := ⟨maxRecent, 0, 0, 0, [], [], []⟩

/-- Insertion into the payer set (a JS `Set` keeps first-insertion order and
ignores duplicates). -/
def addPayer (payers : List JStr) (p : JStr) : List JStr :=
  if p ∈ payers then payers else payers ++ [p]

/-- Model of `TollStats.record(endpoint, paid, amountSats, payerId,
paymentHash)` at wall time `now`.  Note the branch condition: the paid path
is taken only when `paid && amountSats > 0`; otherwise the request counts
as free. -/
def TollStats.record (s : TollStats) (endpoint : JStr) (paid : Bool) (amountSats : Nat)
    (payerId : Option JStr) (paymentHash : Option JStr) (now : Nat) : TollStats :=
  let ep0 := (lookupAssoc s.endpoints endpoint).getD ⟨0, 0, 0, 0⟩
  if paid ∧ 0 < amountSats then
    let ep2 : EpStat := ⟨ep0.revenue + amountSats, ep0.requests + 1, ep0.paid + 1, ep0.free⟩
    let payers :=
      match payerId with
      | some p => if p.isEmpty then s.payers else addPayer s.payers p
      | none => s.payers
    let payer :=
      match payerId with
      | some p => if p.isEmpty then "unknown".data else p
      | none => "unknown".data
    let recents := s.recentPayments ++ [⟨endpoint, amountSats, payer, paymentHash, now⟩]
    let recents2 :=
      if s.maxRecent < recents.length then
        if s.maxRecent = 0 then recents else recents.drop (recents.length - s.maxRecent)
      else recents
    ⟨s.maxRecent, s.totalRevenue + amountSats, s.totalRequests + 1, s.totalPaid + 1,
      updAssoc s.endpoints endpoint ep2, payers, recents2⟩
  else
    ⟨s.maxRecent, s.totalRevenue, s.totalRequests + 1, s.totalPaid,
      updAssoc s.endpoints endpoint ⟨ep0.revenue, ep0.requests + 1, ep0.paid, ep0.free + 1⟩,
      s.payers, s.recentPayments⟩

/-! ## Gating middleware (src/middleware.js, tollMiddleware) -/

/-- Wallet result of `createInvoice` (a thrown wallet error is the `Except`
error case at the call site). -/
structure InvoiceResult where
  invoice : JStr
  paymentHash : JStr

/-- Factory configuration relevant to one request. -/
structure MwConfig where
  secret : JStr
  defaultSats : Nat
  invoiceExpiry : Nat
  macaroonExpiry : Nat
  bindEndpoint : Bool
  bindMethod : Bool
  bindIp : Bool

/-- Incoming request fields read by the middleware. -/
structure MwReq where
  authHeader : Option JStr
  path : JStr
  method : JStr
  xForwardedFor : Option JStr
  reqIp : Option JStr
  socketAddr : Option JStr

/-- Per-route options (`price` and `description` may be functions of the
request). -/
structure RouteOpts where
  sats : Option Nat
  price : Option (MwReq → Nat)
  descriptionStr : Option JStr
  descriptionFn : Option (MwReq → JStr)
  freeRequests : Nat
  freeWindowMs : Nat

/-- JS `a || b` on an optional string (empty is falsy). -/
def orElseStr : Option JStr → JStr → JStr
  | some s, b => if s.isEmpty then b else s
  | none, b => b

/-- Model of `getClientId(req)`: first token of `X-Forwarded-For`, else
`req.ip`, else the socket address, else `"unknown"`. -/
def getClientId (req : MwReq) : JStr :=
  let fb := orElseStr req.reqIp (orElseStr req.socketAddr "unknown".data)
  match req.xForwardedFor with
  | some h =>
    let first := trimStr ((splitStr [','] h).headD [])
    if first.isEmpty then fb else first
  | none => fb

/-- Price resolution: `routeOpts.price(req)` if a function, else
`routeOpts.sats` if a number, else `defaultSats`. -/
def resolvePrice (cfg : MwConfig) (ro : RouteOpts) (req : MwReq) : Nat :=
  match ro.price with
  | some f => f req
  | none =>
    match ro.sats with
    | some n => n
    | none => cfg.defaultSats

/-- Description resolution, analogous to price resolution. -/
def resolveDescription (ro : RouteOpts) (req : MwReq) : JStr :=
  match ro.descriptionFn with
  | some f => f req
  | none =>
    match ro.descriptionStr with
    | some d => d
    | none => "API access: ".data ++ req.method ++ ' ' :: req.path

/-- Typed view of a decoded macaroon, used to hand the JSON value to
`verifyMacaroon`.  A decoded value whose fields are not well-typed strings
would make the JS verifier throw a `TypeError` while hashing or splitting;
the middleware model maps that case to a thrown outcome. -/
def asMacaroon (v : JsValue) : Option Macaroon :=
  match getField v "id".data, getField v "signature".data, getField v "caveats".data with
  | .str id, .str sig, .arr cavs =>
    if cavs.all (fun c => match c with | .str _ => true | _ => false) then
      some ⟨id, cavs.filterMap (fun c => match c with | .str s => some s | _ => none), sig⟩
    else none
  | _, _, _ => none

/-- Outcome of one middleware invocation. -/
inductive MwOutcome where
  | unauthorized (err : JStr)
  | admitPaid (paymentHash : JStr) (amountSats : Nat) (clientId : JStr)
  | admitFree (clientId : JStr)
  | challenge (header : JStr) (body : ChallengeBody)
  | invoiceFailure
  | tollError (msg : JStr)
  | thrown (err : JStr)

/-- Model of one invocation of `tollMiddleware(req, res, next)` at wall
time `now` (milliseconds).  The wallet call is passed in as `walletRes`
(`Except.error` models a thrown `createInvoice`).  The returned triple is
the outcome together with the free-tier map and stats after the call.  The
`onPayment` watcher is fire-and-forget and touches neither, so it is not
modelled. -/
def tollMiddleware (cfg : MwConfig) (ro : RouteOpts) (req : MwReq) (fts : FtMap)
    (stats : TollStats) (now : Nat) (walletRes : Except JStr InvoiceResult) :
    MwOutcome × FtMap × TollStats :=
  let clientId := getClientId req
  let endpoint := req.path
  match parseAuthorization req.authHeader with
  | some creds =>
    match decodeMacaroon creds.macaroon with
    | none => (.unauthorized "Invalid macaroon".data, fts, stats)
    | some decoded =>
      let ctx : VerifyContext :=
        ⟨if cfg.bindEndpoint then some endpoint else none,
         if cfg.bindMethod then some req.method else none,
         if cfg.bindIp then some clientId else none⟩
      match asMacaroon decoded with
      | none => (.thrown "TypeError".data, fts, stats)
      | some mac =>
        match verifyMacaroon cfg.secret mac ctx now with
        | .error e => (.thrown e, fts, stats)
        | .ok r =>
          if !r.valid then (.unauthorized (r.error.getD []), fts, stats)
          else if !(verifyPreimage creds.preimage mac.id) then
            (.unauthorized "Invalid preimage — does not match payment hash".data, fts, stats)
          else
            let price := resolvePrice cfg ro req
            (.admitPaid mac.id price clientId, fts,
              stats.record endpoint true price (some clientId) (some mac.id) now)
  | none =>
    let ft := checkFreeTier ro.freeRequests ro.freeWindowMs fts clientId now
    if ft.2 then
      (.admitFree clientId, ft.1, stats.record endpoint false 0 (some clientId) none now)
    else
      match walletRes with
      | .error e => (.tollError ("Toll booth error: ".data ++ e), ft.1, stats)
      | .ok inv =>
        if inv.invoice.isEmpty ∨ inv.paymentHash.isEmpty then (.invoiceFailure, ft.1, stats)
        else
          let amountSats := resolvePrice cfg ro req
          let description := resolveDescription ro req
          let expiresAt := now / 1000 + cfg.macaroonExpiry
          let mopts : MintOpts :=
            ⟨inv.paymentHash, some expiresAt,
             if cfg.bindEndpoint then some endpoint else none,
             if cfg.bindMethod then some req.method else none,
             if cfg.bindIp then some clientId else none⟩
          match createMacaroon cfg.secret mopts with
          | .error e => (.tollError ("Toll booth error: ".data ++ e), ft.1, stats)
          | .ok mac =>
            (.challenge (formatChallenge inv.invoice mac.raw)
              (formatChallengeBody inv.invoice mac.raw inv.paymentHash amountSats
                (some description)),
              ft.1, stats)

/-! ## Support definitions used in statements and proofs -/

/-- Substring occurrence test (used to state side conditions on caveat
values: a value containing the separator `" = "` is truncated by the
limit-2 split of the verifier). -/
def hasSubstr (sep : JStr) : JStr → Bool
  | [] => sep.isPrefixOf []
  | c :: rest => sep.isPrefixOf (c :: rest) || hasSubstr sep rest

/-- Arguments of one `TollStats.record` call. -/
structure RecOp where
  endpoint : JStr
  paid : Bool
  amountSats : Nat
  payerId : Option JStr
  paymentHash : Option JStr
  now : Nat

/-- Run of a sequence of `record` calls from a fresh `TollStats`. -/
def runStats (maxRecent : Nat) (ops : List RecOp) : TollStats :=
  ops.foldl
    (fun s op => s.record op.endpoint op.paid op.amountSats op.payerId op.paymentHash op.now)
    (freshStats maxRecent)

/-- Sum of a per-endpoint counter over the endpoint map. -/
def sumEp (f : EpStat → Nat) (m : List (JStr × EpStat)) : Nat :=
  (m.map (fun p => f p.2)).sum

/-- Number of admissions (`true` results) of client `c` in the log whose
call time lies in the closed interval `[a, b]`. -/
def admissionsWithin (log : List (JStr × Nat × Bool)) (c : JStr) (a b : Nat) : Nat :=
  log.countP (fun x => x.1 = c ∧ a ≤ x.2.1 ∧ x.2.1 ≤ b ∧ x.2.2 = true)

/-- Number of ghost admission records with a given window start. -/
def countWs (L : List (Nat × Nat)) (w : Nat) : Nat := L.countP (fun x => x.2 = w)

/-- Number of ghost admission records with time in `[a, b]`. -/
def countIn (L : List (Nat × Nat)) (a b : Nat) : Nat :=
  L.countP (fun x => a ≤ x.1 ∧ x.1 ≤ b)

/-- Relation between two ghost admission records: same counter window, or a
strictly later window (windows are separated by more than `W`). -/
def wsRel (W : Nat) (x y : Nat × Nat) : Prop :=
  x.2 = y.2 ∨ (x.2 : Int) + W < y.2

/-- Ghost invariant tying the free-tier map entry of client `c` to the list
`L` of past admissions `(time, windowStart)` of `c`, with `T` an upper bound
of all past call times (and a lower bound of future ones). -/
structure FtInv (fr W : Nat) (c : JStr) (m : FtMap) (L : List (Nat × Nat)) (T : Nat) : Prop where
  absent : lookupAssoc m c = none → L = []
  present : ∀ e, lookupAssoc m c = some e →
    e.count = countWs L e.windowStart ∧ e.count ≤ fr ∧ e.windowStart ≤ T ∧
    (∀ x ∈ L, x.2 = e.windowStart ∨ (x.2 : Int) + W < e.windowStart)
  bounds : ∀ x ∈ L, x.2 ≤ x.1 ∧ (x.1 : Int) ≤ x.2 + W
  timesLe : ∀ x ∈ L, x.1 ≤ T
  counts : ∀ w, countWs L w ≤ fr
  pw : L.Pairwise (wsRel W)

/-- Concrete middleware configuration used by witnesses. -/
def cfgW : MwConfig := ⟨"s".data, 10, 300, 3600, true, true, false⟩

/-- Concrete route options used by witnesses. -/
def roW : RouteOpts := ⟨some 5, none, none, none, 0, 3600000⟩

/-- Concrete credential-free request used by witnesses. -/
def reqW : MwReq := ⟨none, "/a".data, "GET".data, none, some "1.2.3.4".data, none⟩

/-- Concrete credentialed request used by witnesses. -/
def reqAuthW : MwReq :=
  ⟨some ("L402 mm:pp".data), "/a".data, "GET".data, none, some "1.2.3.4".data, none⟩

/-! # Theorems

General-purpose lemmas first, then one theorem (plus witness or
counterexample) per specification claim. -/

theorem hexEncode_length (bs : Bytes) : (hexEncode bs).length = 2 * bs.length := by
  induction bs with
  | nil => rfl
  | cons b rest ih => simp [hexEncode, ih]; omega

theorem hexDigitVal_hexDigitChar (n : Nat) (h : n < 16) :
    hexDigitVal (hexDigitChar n) = some n := by
  interval_cases n <;> decide

theorem hexDecode_hexEncode (bs : Bytes) (h : ∀ b ∈ bs, b < 256) :
    hexDecode (hexEncode bs) = bs := by
  induction bs with
  | nil => rfl
  | cons b rest ih =>
    have hb : b < 256 := h b (by simp)
    have h1 : b / 16 % 16 < 16 := Nat.mod_lt _ (by omega)
    have h2 : b % 16 < 16 := Nat.mod_lt _ (by omega)
    have ih2 := ih (fun x hx => h x (by simp [hx]))
    simp [hexEncode, hexDecode, hexDigitVal_hexDigitChar _ h1,
      hexDigitVal_hexDigitChar _ h2, ih2]
    omega

theorem wordBytesBE_lt (w : Nat) : ∀ b ∈ wordBytesBE w, b < 256 := by
  simp [wordBytesBE]
  omega

theorem sha256_length (m : Bytes) : (sha256 m).length = 32 := by
  simp [sha256, wordBytesBE]

theorem sha256_lt (m : Bytes) : ∀ b ∈ sha256 m, b < 256 := by
  intro b hb
  simp only [sha256, List.mem_append] at hb
  rcases hb with ((((((h | h) | h) | h) | h) | h) | h) | h <;> exact wordBytesBE_lt _ _ h

theorem hmacSHA256_length (key msg : Bytes) : (hmacSHA256 key msg).length = 32 := by
  simp [hmacSHA256, sha256_length]

theorem hmacSHA256_lt (key msg : Bytes) : ∀ b ∈ hmacSHA256 key msg, b < 256 := by
  simp only [hmacSHA256]
  exact sha256_lt _

theorem chainSig_foldl_aux (l : List JStr) (init : Bytes)
    (h : init.length = 32 ∧ ∀ b ∈ init, b < 256) :
    (l.foldl (fun sig c => hmacSHA256 sig (strBytes c)) init).length = 32 ∧
      ∀ b ∈ l.foldl (fun sig c => hmacSHA256 sig (strBytes c)) init, b < 256 := by
  induction l generalizing init with
  | nil => exact h
  | cons c rest ih =>
    exact ih (hmacSHA256 init (strBytes c)) ⟨hmacSHA256_length _ _, hmacSHA256_lt _ _⟩

theorem chainSig_length (secret id : JStr) (caveats : List JStr) :
    (chainSig secret id caveats).length = 32 :=
  (chainSig_foldl_aux caveats _ ⟨hmacSHA256_length _ _, hmacSHA256_lt _ _⟩).1

theorem chainSig_lt (secret id : JStr) (caveats : List JStr) :
    ∀ b ∈ chainSig secret id caveats, b < 256 :=
  (chainSig_foldl_aux caveats _ ⟨hmacSHA256_length _ _, hmacSHA256_lt _ _⟩).2

theorem hexDecode_hexEncode_chainSig (secret id : JStr) (caveats : List JStr) :
    hexDecode (hexEncode (chainSig secret id caveats)) = chainSig secret id caveats :=
  hexDecode_hexEncode _ (chainSig_lt secret id caveats)

theorem timingSafeEqual_self (a : Bytes) : timingSafeEqual a a = .ok true := by
  simp [timingSafeEqual]

theorem timingSafeEqual_of_length_eq {a b : Bytes} (h : a.length = b.length) :
    timingSafeEqual a b = .ok (a == b) := by
  simp [timingSafeEqual, h]

theorem timingSafeEqual_of_length_ne {a b : Bytes} (h : a.length ≠ b.length) :
    timingSafeEqual a b = .error "Input buffers must have the same byte length".data := by
  simp [timingSafeEqual, h]

/-! ### Decimal digits and parseInt round trip -/

theorem natDigitsRevAux_lt (fuel : Nat) : ∀ n, n ≤ fuel → ∀ d ∈ natDigitsRevAux fuel n, d < 10 := by
  induction fuel with
  | zero =>
    intro n hn d hd
    interval_cases n
    simp [natDigitsRevAux] at hd
    omega
  | succ f ih =>
    intro n hn d hd
    by_cases h10 : n < 10
    · simp [natDigitsRevAux, h10] at hd
      omega
    · simp [natDigitsRevAux, h10] at hd
      rcases hd with rfl | hd
      · exact Nat.mod_lt _ (by omega)
      · exact ih (n / 10) (by have := Nat.div_lt_self (by omega : 0 < n) (by omega : 1 < 10); omega) d hd

theorem digitsVal_append (xs : List Nat) (d : Nat) :
    digitsVal (xs ++ [d]) = 10 * digitsVal xs + d := by
  simp [digitsVal, List.foldl_append]

theorem natDigitsRevAux_val (fuel : Nat) : ∀ n, n ≤ fuel →
    digitsVal (natDigitsRevAux fuel n).reverse = n := by
  induction fuel with
  | zero =>
    intro n hn
    interval_cases n
    simp [natDigitsRevAux, digitsVal]
  | succ f ih =>
    intro n hn
    by_cases h10 : n < 10
    · simp [natDigitsRevAux, h10, digitsVal]
    · have hdiv : n / 10 ≤ f := by
        have := Nat.div_lt_self (by omega : 0 < n) (by omega : 1 < 10)
        omega
      simp only [natDigitsRevAux, h10, if_false, List.reverse_cons]
      rw [digitsVal_append, ih (n / 10) hdiv]
      omega

theorem natDigitsRevAux_ne_nil (fuel n : Nat) : natDigitsRevAux fuel n ≠ [] := by
  cases fuel with
  | zero => simp [natDigitsRevAux]
  | succ f =>
    by_cases h10 : n < 10 <;> simp [natDigitsRevAux, h10]

theorem natToStr_ne_nil (n : Nat) : natToStr n ≠ [] := by
  simp [natToStr, natDigitsRev]
  exact natDigitsRevAux_ne_nil n n

theorem digitChar_toNat (d : Nat) (h : d < 10) : (Char.ofNat (48 + d)).toNat = 48 + d := by
  interval_cases d <;> decide

theorem digitChar_isDigit (d : Nat) (h : d < 10) : (Char.ofNat (48 + d)).isDigit = true := by
  interval_cases d <;> decide

theorem natToStr_all_digit (n : Nat) : ∀ c ∈ natToStr n, c.isDigit = true := by
  intro c hc
  simp only [natToStr, natDigitsRev, List.mem_map, List.mem_reverse] at hc
  obtain ⟨d, hd, rfl⟩ := hc
  exact digitChar_isDigit d (natDigitsRevAux_lt n n (le_refl n) d hd)


/-! ### Generic string-scan lemmas -/

theorem dropWhile_eq_self_of_all {p : Char → Bool} (s : JStr) (h : ∀ c ∈ s, p c = false) :
    s.dropWhile p = s := by
  cases s with
  | nil => rfl
  | cons c cs => simp [List.dropWhile_cons, h c (by simp)]

theorem takeWhile_eq_self_of_all {p : Char → Bool} :
    ∀ s : JStr, (∀ c ∈ s, p c = true) → s.takeWhile p = s := by
  intro s
  induction s with
  | nil => intro _; rfl
  | cons c cs ih =>
    intro h
    simp only [List.takeWhile_cons, h c (by simp), if_true, List.cons.injEq, true_and]
    exact ih (fun x hx => h x (by simp [hx]))

theorem trimStr_eq_self_of_all (s : JStr) (h : ∀ c ∈ s, isWS c = false) : trimStr s = s := by
  unfold trimStr
  rw [dropWhile_eq_self_of_all s h]
  rw [dropWhile_eq_self_of_all s.reverse (fun c hc => h c (List.mem_reverse.mp hc))]
  simp

theorem digitChar_props (d : Nat) (h : d < 10) :
    (Char.ofNat (48 + d)).isDigit = true ∧ isWS (Char.ofNat (48 + d)) = false ∧
      Char.ofNat (48 + d) ≠ '-' ∧ Char.ofNat (48 + d) ≠ '+' ∧ Char.ofNat (48 + d) ≠ ' ' := by
  interval_cases d <;> exact ⟨by decide, by decide, by decide, by decide, by decide⟩

theorem natToStr_chars (n : Nat) : ∀ c ∈ natToStr n,
    c.isDigit = true ∧ isWS c = false ∧ c ≠ '-' ∧ c ≠ '+' ∧ c ≠ ' ' := by
  intro c hc
  simp only [natToStr, natDigitsRev, List.mem_map, List.mem_reverse] at hc
  obtain ⟨d, hd, rfl⟩ := hc
  exact digitChar_props d (natDigitsRevAux_lt n n (le_refl n) d hd)

theorem trimStr_natToStr (n : Nat) : trimStr (natToStr n) = natToStr n :=
  trimStr_eq_self_of_all _ (fun c hc => (natToStr_chars n c hc).2.1)

theorem parseIntJS_digits (s : JStr) (hne : s ≠ [])
    (hall : ∀ c ∈ s, c.isDigit = true ∧ isWS c = false ∧ c ≠ '-' ∧ c ≠ '+') :
    parseIntJS s = some (digitsVal (s.map (fun c => c.toNat - 48)) : Int) := by
  obtain ⟨c, cs, rfl⟩ : ∃ c cs, s = c :: cs := by
    cases s with
    | nil => exact absurd rfl hne
    | cons c cs => exact ⟨c, cs, rfl⟩
  have hc := hall c (by simp)
  have hm : c ≠ '-' := hc.2.2.1
  have hp : c ≠ '+' := hc.2.2.2
  simp only [parseIntJS]
  rw [dropWhile_eq_self_of_all _ (fun x hx => (hall x hx).2.1)]
  simp only [List.headD_cons, hm, hp]
  simp [takeWhile_eq_self_of_all _ (fun x hx => (hall x hx).1)]

theorem natToStr_map_val (n : Nat) :
    (natToStr n).map (fun c => c.toNat - 48) = (natDigitsRev n).reverse := by
  simp only [natToStr, List.map_map]
  have : ∀ d ∈ (natDigitsRev n).reverse,
      ((fun c : Char => c.toNat - 48) ∘ fun d => Char.ofNat (48 + d)) d = id d := by
    intro d hd
    have hd10 : d < 10 :=
      natDigitsRevAux_lt n n (le_refl n) d (by simpa [natDigitsRev] using hd)
    simp [Function.comp, digitChar_toNat d hd10]
  rw [List.map_congr_left this]
  simp

theorem parseIntJS_natToStr (n : Nat) : parseIntJS (natToStr n) = some (n : Int) := by
  rw [parseIntJS_digits (natToStr n) (natToStr_ne_nil n)
    (fun c hc => ⟨(natToStr_chars n c hc).1, (natToStr_chars n c hc).2.1,
      (natToStr_chars n c hc).2.2.1, (natToStr_chars n c hc).2.2.2.1⟩)]
  rw [natToStr_map_val]
  rw [show natDigitsRev n = natDigitsRevAux n n from rfl]
  rw [natDigitsRevAux_val n n (le_refl n)]

/-! ### Split lemmas -/

theorem isPrefixOf_cons_ne {s0 c : Char} (sr cs : JStr) (h : c ≠ s0) :
    (s0 :: sr).isPrefixOf (c :: cs) = false := by
  simp [List.isPrefixOf]
  intro heq
  exact absurd heq.symm h

theorem hasSubstr_of_all_ne_head {s0 : Char} (sr : JStr) :
    ∀ v : JStr, (∀ c ∈ v, c ≠ s0) → hasSubstr (s0 :: sr) v = false := by
  intro v
  induction v with
  | nil => intro _; rfl
  | cons c cs ih =>
    intro h
    simp only [hasSubstr, Bool.or_eq_false_iff]
    exact ⟨isPrefixOf_cons_ne sr cs (h c (by simp)),
      ih (fun x hx => h x (by simp [hx]))⟩

theorem splitOnAux_push (s0 : Char) (sr : JStr) :
    ∀ (k : JStr) (fuel : Nat) (rest acc : JStr), (∀ c ∈ k, c ≠ s0) → k.length ≤ fuel →
      splitOnAux s0 sr fuel (k ++ rest) acc =
        splitOnAux s0 sr (fuel - k.length) rest (k.reverse ++ acc) := by
  intro k
  induction k with
  | nil => intro fuel rest acc _ _; simp
  | cons c k2 ih =>
    intro fuel rest acc hk hlen
    cases fuel with
    | zero => simp at hlen
    | succ f =>
      have hc : c ≠ s0 := hk c (by simp)
      show splitOnAux s0 sr (f + 1) (c :: (k2 ++ rest)) acc = _
      rw [splitOnAux]
      rw [if_neg (by simp [isPrefixOf_cons_ne sr _ hc])]
      rw [ih f rest (c :: acc) (fun x hx => hk x (by simp [hx])) (by simpa using hlen)]
      simp

theorem splitOnAux_no_occur (s0 : Char) (sr : JStr) :
    ∀ (s : JStr) (fuel : Nat) (acc : JStr), s.length ≤ fuel →
      hasSubstr (s0 :: sr) s = false →
      splitOnAux s0 sr fuel s acc = [acc.reverse ++ s] := by
  intro s
  induction s with
  | nil => intro fuel acc _ _; cases fuel <;> simp [splitOnAux]
  | cons c s2 ih =>
    intro fuel acc hlen hocc
    cases fuel with
    | zero => simp at hlen
    | succ f =>
      simp only [hasSubstr, Bool.or_eq_false_iff] at hocc
      rw [splitOnAux]
      rw [if_neg (by simp [hocc.1])]
      rw [ih f (c :: acc) (by simpa using hlen) hocc.2]
      simp

theorem splitStr_key_value (s0 : Char) (sr k v : JStr) (hk : ∀ c ∈ k, c ≠ s0)
    (hv : hasSubstr (s0 :: sr) v = false) :
    splitStr (s0 :: sr) (k ++ (s0 :: sr) ++ v) = [k, v] := by
  simp only [splitStr]
  rw [List.append_assoc]
  rw [splitOnAux_push s0 sr k _ _ [] hk (by simp)]
  have hfuel : (k ++ ((s0 :: sr) ++ v)).length - k.length = sr.length + v.length + 1 := by
    simp
  rw [hfuel]
  show splitOnAux s0 sr (sr.length + v.length + 1) (s0 :: (sr ++ v)) _ = _
  rw [splitOnAux]
  rw [if_pos (by simp [List.isPrefixOf_iff_prefix])]
  simp only [List.drop_left]
  rw [splitOnAux_no_occur s0 sr v _ [] (by omega) hv]
  simp

/-! ### Signature check of a freshly minted macaroon -/

theorem hexEncode_chainSig_ne_nil (secret id : JStr) (cavs : List JStr) :
    hexEncode (chainSig secret id cavs) ≠ [] := by
  intro h
  have hl := hexEncode_length (chainSig secret id cavs)
  rw [h, chainSig_length] at hl
  simp at hl

theorem verifyMacaroon_mint (secret id : JStr) (cavs : List JStr) (ctx : VerifyContext)
    (now : Nat) (hid : id ≠ []) :
    verifyMacaroon secret ⟨id, cavs, hexEncode (chainSig secret id cavs)⟩ ctx now =
      .ok (checkCaveats ctx now id cavs) := by
  have hsig := hexEncode_chainSig_ne_nil secret id cavs
  simp only [verifyMacaroon]
  rw [if_neg (by simp [List.isEmpty_iff, hid, hsig])]
  rw [timingSafeEqual_self]
  simp

/-! ### Caveat steps of the verifier on well-formed minted caveats -/

theorem checkCaveats_cons_expires (ctx : VerifyContext) (now : Nat) (id : JStr)
    (rest : List JStr) (t : Nat) (hnow : (now : Int) ≤ 1000 * t) :
    checkCaveats ctx now id (("expires_at = ".data ++ natToStr t) :: rest) =
      checkCaveats ctx now id rest := by
  have hexp : ("expires_at = ".data : JStr) = "expires_at".data ++ " = ".data := by decide
  have hsplit : splitStr " = ".data ("expires_at = ".data ++ natToStr t) =
      ["expires_at".data, natToStr t] := by
    rw [hexp, List.append_assoc]
    exact splitStr_key_value ' ' ['=', ' '] "expires_at".data (natToStr t) (by decide)
      (hasSubstr_of_all_ne_head _ _ (fun c hc => (natToStr_chars t c hc).2.2.2.2))
  simp only [checkCaveats, hsplit]
  rw [if_neg (by decide), if_pos (by decide)]
  rw [trimStr_natToStr, parseIntJS_natToStr]
  simp only
  rw [if_neg (by omega)]

theorem checkCaveats_cons_endpoint (ctx : VerifyContext) (now : Nat) (id : JStr)
    (rest : List JStr) (v : JStr) (hv : trimStr v = v)
    (hsub : hasSubstr " = ".data v = false) (hctx : ctx.endpoint = some v) :
    checkCaveats ctx now id (("endpoint = ".data ++ v) :: rest) =
      checkCaveats ctx now id rest := by
  have hexp : ("endpoint = ".data : JStr) = "endpoint".data ++ " = ".data := by decide
  have hsplit : splitStr " = ".data ("endpoint = ".data ++ v) = ["endpoint".data, v] := by
    rw [hexp, List.append_assoc]
    exact splitStr_key_value ' ' ['=', ' '] "endpoint".data v (by decide) hsub
  simp only [checkCaveats, hsplit]
  rw [if_neg (by decide), if_neg (by decide), if_pos (by decide)]
  rw [if_neg (by simp [hctx, hv])]

theorem checkCaveats_cons_method (ctx : VerifyContext) (now : Nat) (id : JStr)
    (rest : List JStr) (v : JStr) (hv : trimStr v = v)
    (hsub : hasSubstr " = ".data v = false) (hctx : ctx.method = some v) :
    checkCaveats ctx now id (("method = ".data ++ v) :: rest) =
      checkCaveats ctx now id rest := by
  have hexp : ("method = ".data : JStr) = "method".data ++ " = ".data := by decide
  have hsplit : splitStr " = ".data ("method = ".data ++ v) = ["method".data, v] := by
    rw [hexp, List.append_assoc]
    exact splitStr_key_value ' ' ['=', ' '] "method".data v (by decide) hsub
  simp only [checkCaveats, hsplit]
  rw [if_neg (by decide), if_neg (by decide), if_neg (by decide), if_pos (by decide)]
  rw [if_neg (by simp [hctx, hv])]

theorem checkCaveats_cons_ip (ctx : VerifyContext) (now : Nat) (id : JStr)
    (rest : List JStr) (v : JStr) (hv : trimStr v = v)
    (hsub : hasSubstr " = ".data v = false) (hctx : ctx.ip = some v) :
    checkCaveats ctx now id (("ip = ".data ++ v) :: rest) =
      checkCaveats ctx now id rest := by
  have hexp : ("ip = ".data : JStr) = "ip".data ++ " = ".data := by decide
  have hsplit : splitStr " = ".data ("ip = ".data ++ v) = ["ip".data, v] := by
    rw [hexp, List.append_assoc]
    exact splitStr_key_value ' ' ['=', ' '] "ip".data v (by decide) hsub
  simp only [checkCaveats, hsplit]
  rw [if_neg (by decide), if_neg (by decide), if_neg (by decide), if_neg (by decide),
    if_pos (by decide)]
  rw [if_neg (by simp [hctx, hv])]

/-! ### Caveat blocks of the minted list -/

theorem createMacaroon_ok (secret : JStr) (o : MintOpts) (hs : secret ≠ [])
    (hp : o.paymentHash ≠ []) :
    createMacaroon secret o = .ok ⟨o.paymentHash, mintCaveats o,
      hexEncode (chainSig secret o.paymentHash (mintCaveats o)),
      base64urlEncode (strBytes (jsonStringify (macPayload o.paymentHash (mintCaveats o)
        (hexEncode (chainSig secret o.paymentHash (mintCaveats o))))))⟩ := by
  simp [createMacaroon, List.isEmpty_iff, hs, hp]

theorem checkCaveats_expires_block (ctx : VerifyContext) (now : Nat) (id : JStr)
    (rest : List JStr) (et : Option Nat) (h : ∀ t, et = some t → (now : Int) ≤ 1000 * t) :
    checkCaveats ctx now id (expCaveat et ++ rest) = checkCaveats ctx now id rest := by
  cases et with
  | none => simp [expCaveat]
  | some t =>
    by_cases ht : t = 0
    · simp [expCaveat, ht]
    · simp only [expCaveat, ht, if_false, List.singleton_append]
      exact checkCaveats_cons_expires ctx now id rest t (h t rfl)

theorem checkCaveats_endpoint_block (ctx : VerifyContext) (now : Nat) (id : JStr)
    (rest : List JStr) (ep : Option JStr) (hctx : ctx.endpoint = ep)
    (hep : ∀ v, ep = some v → trimStr v = v ∧ hasSubstr " = ".data v = false) :
    checkCaveats ctx now id (optCaveat "endpoint".data ep ++ rest) =
      checkCaveats ctx now id rest := by
  cases ep with
  | none => simp [optCaveat]
  | some e =>
    by_cases he : e.isEmpty
    · simp [optCaveat, he]
    · obtain ⟨h1, h2⟩ := hep e rfl
      simp only [optCaveat, he, if_false, List.singleton_append]
      rw [show ("endpoint".data ++ " = ".data : JStr) = "endpoint = ".data from by decide]
      exact checkCaveats_cons_endpoint ctx now id rest e h1 h2 hctx

theorem checkCaveats_method_block (ctx : VerifyContext) (now : Nat) (id : JStr)
    (rest : List JStr) (me : Option JStr) (hctx : ctx.method = me)
    (hme : ∀ v, me = some v → trimStr v = v ∧ hasSubstr " = ".data v = false) :
    checkCaveats ctx now id (optCaveat "method".data me ++ rest) =
      checkCaveats ctx now id rest := by
  cases me with
  | none => simp [optCaveat]
  | some e =>
    by_cases he : e.isEmpty
    · simp [optCaveat, he]
    · obtain ⟨h1, h2⟩ := hme e rfl
      simp only [optCaveat, he, if_false, List.singleton_append]
      rw [show ("method".data ++ " = ".data : JStr) = "method = ".data from by decide]
      exact checkCaveats_cons_method ctx now id rest e h1 h2 hctx

theorem checkCaveats_ip_block (ctx : VerifyContext) (now : Nat) (id : JStr)
    (rest : List JStr) (ip : Option JStr) (hctx : ctx.ip = ip)
    (hip : ∀ v, ip = some v → trimStr v = v ∧ hasSubstr " = ".data v = false) :
    checkCaveats ctx now id (optCaveat "ip".data ip ++ rest) =
      checkCaveats ctx now id rest := by
  cases ip with
  | none => simp [optCaveat]
  | some e =>
    by_cases he : e.isEmpty
    · simp [optCaveat, he]
    · obtain ⟨h1, h2⟩ := hip e rfl
      simp only [optCaveat, he, if_false, List.singleton_append]
      rw [show ("ip".data ++ " = ".data : JStr) = "ip = ".data from by decide]
      exact checkCaveats_cons_ip ctx now id rest e h1 h2 hctx

/-- Claim C1 (amended): minting with `createMacaroon` and verifying with
`verifyMacaroon` under the same secret and a context equal to the minted
caveat values yields `{valid: true, paymentHash: id}`, provided the expiry
has not passed and each optional caveat value is trim-invariant and does
not contain the separator `" = "`. -/
theorem C1_mint_verify_roundtrip
    (secret ph : JStr) (t : Nat) (ep me ip : Option JStr) (now : Nat)
    (hs : secret ≠ []) (hp : ph ≠ []) (ht : 0 < t) (hnow : (now : Int) ≤ 1000 * t)
    (hep : ∀ v, ep = some v → trimStr v = v ∧ hasSubstr " = ".data v = false)
    (hme : ∀ v, me = some v → trimStr v = v ∧ hasSubstr " = ".data v = false)
    (hip : ∀ v, ip = some v → trimStr v = v ∧ hasSubstr " = ".data v = false) :
    ∃ mac : MintedMacaroon,
      createMacaroon secret ⟨ph, some t, ep, me, ip⟩ = .ok mac ∧
      mac.id = ph ∧
      verifyMacaroon secret ⟨mac.id, mac.caveats, mac.signature⟩ ⟨ep, me, ip⟩ now =
        .ok ⟨true, none, some ph⟩ := by
  refine ⟨_, createMacaroon_ok secret ⟨ph, some t, ep, me, ip⟩ hs hp, rfl, ?_⟩
  rw [verifyMacaroon_mint secret ph (mintCaveats ⟨ph, some t, ep, me, ip⟩) ⟨ep, me, ip⟩ now hp]
  have hrw : mintCaveats ⟨ph, some t, ep, me, ip⟩ =
      expCaveat (some t) ++ (optCaveat "endpoint".data ep ++
        (optCaveat "method".data me ++ (optCaveat "ip".data ip ++ []))) := by
    simp [mintCaveats]
  rw [hrw]
  rw [checkCaveats_expires_block ⟨ep, me, ip⟩ now ph _ (some t)
    (fun t2 h => by cases h; exact hnow)]
  rw [checkCaveats_endpoint_block ⟨ep, me, ip⟩ now ph _ ep rfl hep]
  rw [checkCaveats_method_block ⟨ep, me, ip⟩ now ph _ me rfl hme]
  rw [checkCaveats_ip_block ⟨ep, me, ip⟩ now ph [] ip rfl hip]
  rfl

/-- Counterexample to claim C1 as stated: with endpoint value `"a = b"`
(which contains the separator `" = "`), mint succeeds, the signature check
of verification passes, but the limit-2 split truncates the caveat value to
`"a"` and verification rejects with an endpoint mismatch instead of
returning `{valid: true}`. -/
theorem C1_counterexample :
    createMacaroon "s".data ⟨"h".data, none, some "a = b".data, none, none⟩ =
      .ok ⟨"h".data, ["endpoint = a = b".data],
        hexEncode (chainSig "s".data "h".data ["endpoint = a = b".data]),
        base64urlEncode (strBytes (jsonStringify (macPayload "h".data
          ["endpoint = a = b".data]
          (hexEncode (chainSig "s".data "h".data ["endpoint = a = b".data])))))⟩ ∧
    verifyMacaroon "s".data
        ⟨"h".data, ["endpoint = a = b".data],
          hexEncode (chainSig "s".data "h".data ["endpoint = a = b".data])⟩
        ⟨some "a = b".data, none, none⟩ 0 =
      .ok ⟨false, some "Endpoint mismatch: expected a, got a = b".data, some "h".data⟩ := by
  constructor
  · have hmc : mintCaveats ⟨"h".data, none, some "a = b".data, none, none⟩ =
        ["endpoint = a = b".data] := by decide
    rw [createMacaroon_ok _ _ (by decide) (by decide), hmc]
  · rw [verifyMacaroon_mint "s".data "h".data ["endpoint = a = b".data]
      ⟨some "a = b".data, none, none⟩ 0 (by decide)]
    exact congrArg Except.ok (by decide)

/-- Witness for the amended claim C1 at a concrete input. -/
theorem C1_witness :
    (500 : Int) ≤ 1000 * 1 ∧
    (∃ mac : MintedMacaroon,
      createMacaroon "s".data ⟨"h".data, some 1, some "/a".data, some "GET".data, none⟩ =
        .ok mac ∧
      mac.id = "h".data ∧
      verifyMacaroon "s".data ⟨mac.id, mac.caveats, mac.signature⟩
        ⟨some "/a".data, some "GET".data, none⟩ 500 = .ok ⟨true, none, some "h".data⟩) :=
  ⟨by decide,
    C1_mint_verify_roundtrip "s".data "h".data 1 (some "/a".data) (some "GET".data) none 500
      (by decide) (by decide) (by decide) (by decide)
      (fun v h => by cases h; exact ⟨by decide, by decide⟩)
      (fun v h => by cases h; exact ⟨by decide, by decide⟩)
      (fun v h => by simp at h)⟩

/-- Claim C2 (amended): for every decoded macaroon with non-empty id and
signature whose signature hex-decodes (Node semantics) to exactly 32 bytes
differing from the recomputed chained HMAC digest, `verifyMacaroon` returns
`{valid: false, error: 'Invalid macaroon signature', paymentHash: id}`.
Signatures that decode to any other length make `timingSafeEqual` throw
instead (see the counterexample). -/
theorem C2_invalid_signature (secret : JStr) (mac : Macaroon) (ctx : VerifyContext) (now : Nat)
    (hid : mac.id ≠ []) (hsig : mac.signature ≠ [])
    (hlen : (hexDecode mac.signature).length = 32)
    (hne : hexDecode mac.signature ≠ chainSig secret mac.id mac.caveats) :
    verifyMacaroon secret mac ctx now =
      .ok ⟨false, some "Invalid macaroon signature".data, some mac.id⟩ := by
  simp only [verifyMacaroon]
  rw [if_neg (by simp [List.isEmpty_iff, hid, hsig])]
  rw [hexDecode_hexEncode_chainSig]
  rw [timingSafeEqual_of_length_eq (by rw [hlen, chainSig_length])]
  have hbeq : (hexDecode mac.signature == chainSig secret mac.id mac.caveats) = false := by
    simp [hne]
  rw [hbeq]
  simp

/-- Counterexample to claim C2 as stated: a decoded macaroon whose
signature `"zz"` is not valid hex (it decodes to 0 bytes) makes
`verifyMacaroon` throw the `RangeError` of `crypto.timingSafeEqual` instead
of returning `{valid: false, error: 'Invalid macaroon signature'}` — and
its signature string does differ from the hex encoding of the recomputed
HMAC, so it is in the scope of the claim. -/
theorem C2_counterexample :
    verifyMacaroon "s".data ⟨"h".data, [], "zz".data⟩ ⟨none, none, none⟩ 0 =
      .error "Input buffers must have the same byte length".data ∧
    ("zz".data : JStr) ≠ hexEncode (chainSig "s".data "h".data []) := by
  constructor
  · simp only [verifyMacaroon]
    rw [if_neg (by decide)]
    rw [hexDecode_hexEncode_chainSig]
    rw [timingSafeEqual_of_length_ne (by rw [chainSig_length]; decide)]
  · intro h
    apply_fun List.length at h
    rw [hexEncode_length, chainSig_length] at h
    simp at h

/-- Witness for the amended claim C2 at a concrete input (an all-zero
64-character hex signature, which certainly differs from the HMAC digest). -/
theorem C2_witness :
    (hexDecode "0000000000000000000000000000000000000000000000000000000000000000".data).length
        = 32 ∧
    hexDecode "0000000000000000000000000000000000000000000000000000000000000000".data ≠
      chainSig "s".data "h".data [] ∧
    verifyMacaroon "s".data
        ⟨"h".data, [], "0000000000000000000000000000000000000000000000000000000000000000".data⟩
        ⟨none, none, none⟩ 0 =
      .ok ⟨false, some "Invalid macaroon signature".data, some "h".data⟩ := by
  have hne : hexDecode
      "0000000000000000000000000000000000000000000000000000000000000000".data ≠
      chainSig "s".data "h".data [] := by decide
  exact ⟨by decide, hne,
    C2_invalid_signature "s".data
      ⟨"h".data, [], "0000000000000000000000000000000000000000000000000000000000000000".data⟩
      ⟨none, none, none⟩ 0 (by decide) (by decide) (by decide) hne⟩

/-- Claim C3 (amended): `verifyPreimage` returns true iff both arguments
are non-empty and SHA-256 of the Node-hex-decoded preimage equals the
Node-hex-decoded payment hash, where hex decoding truncates at the first
invalid character rather than failing; it never throws (the try/catch turns
the length-mismatch `RangeError` into false). -/
theorem C3_verifyPreimage (p h : JStr) :
    verifyPreimage p h = true ↔ p ≠ [] ∧ h ≠ [] ∧ sha256 (hexDecode p) = hexDecode h := by
  simp only [verifyPreimage]
  by_cases hp : p.isEmpty
  · rw [if_pos (Or.inl hp)]
    simp [List.isEmpty_iff.mp hp]
  · by_cases hh : h.isEmpty
    · rw [if_pos (Or.inr hh)]
      simp [List.isEmpty_iff.mp hh]
    · rw [if_neg (by simp [hp, hh])]
      rw [hexDecode_hexEncode (sha256 (hexDecode p)) (sha256_lt _)]
      have hp2 : p ≠ [] := by simpa [List.isEmpty_iff] using hp
      have hh2 : h ≠ [] := by simpa [List.isEmpty_iff] using hh
      by_cases hl : (sha256 (hexDecode p)).length = (hexDecode h).length
      · rw [timingSafeEqual_of_length_eq hl]
        simp [hp2, hh2]
      · rw [timingSafeEqual_of_length_ne hl]
        constructor
        · intro hfalse; cases hfalse
        · intro hc
          exact absurd (congrArg List.length hc.2.2) hl

/-- Counterexample to claim C3 as stated: the preimage `"zz"` is a
hex-decode failure (the strict decoder rejects it), so the claim requires
`verifyPreimage` to return false; but Node truncates `"zz"` to zero bytes,
SHA-256 of the empty byte string matches the given payment hash, and
`verifyPreimage` returns true. -/
theorem C3_counterexample :
    verifyPreimage "zz".data
      "e3b0c44298fc1c149afbf4c8996fb92427ae41e4649b934ca495991b7852b855".data = true ∧
    strictHexDecode "zz".data = none := by
  exact ⟨by decide, by decide⟩

/-! ### Association-map lemmas -/

theorem lookupAssoc_updAssoc_self {K V : Type} [DecidableEq K] (m : List (K × V)) (k : K)
    (v : V) : lookupAssoc (updAssoc m k v) k = some v := by
  induction m with
  | nil => simp [updAssoc, lookupAssoc]
  | cons p rest ih =>
    obtain ⟨k0, v0⟩ := p
    by_cases hk : k0 = k
    · subst hk; simp [updAssoc, lookupAssoc]
    · simp [updAssoc, lookupAssoc, hk, ih]

theorem lookupAssoc_updAssoc_ne {K V : Type} [DecidableEq K] (m : List (K × V)) (k k2 : K)
    (v : V) (h : k2 ≠ k) : lookupAssoc (updAssoc m k v) k2 = lookupAssoc m k2 := by
  induction m with
  | nil => simp [updAssoc, lookupAssoc, Ne.symm h]
  | cons p rest ih =>
    obtain ⟨k0, v0⟩ := p
    by_cases hk : k0 = k
    · subst hk
      simp only [updAssoc, if_pos rfl]
      simp [lookupAssoc, Ne.symm h]
    · simp [updAssoc, lookupAssoc, hk, ih]

theorem updAssoc_lookup_self {K V : Type} [DecidableEq K] (m : List (K × V)) (k : K) (v : V)
    (h : lookupAssoc m k = some v) : updAssoc m k v = m := by
  induction m with
  | nil => simp [lookupAssoc] at h
  | cons p rest ih =>
    obtain ⟨k0, v0⟩ := p
    by_cases hk : k0 = k
    · subst hk
      simp [lookupAssoc] at h
      simp [updAssoc, h]
    · simp [lookupAssoc, hk] at h
      simp [updAssoc, hk, ih h]

/-! ### Stats sums (claims C8 and C10) -/

theorem sumEp_updAssoc (f : EpStat → Nat) (hz : f ⟨0, 0, 0, 0⟩ = 0)
    (m : List (JStr × EpStat)) (k : JStr) (v : EpStat) :
    sumEp f (updAssoc m k v) + f ((lookupAssoc m k).getD ⟨0, 0, 0, 0⟩) = sumEp f m + f v := by
  induction m with
  | nil => simp [updAssoc, lookupAssoc, sumEp, hz]
  | cons p rest ih =>
    obtain ⟨k0, v0⟩ := p
    by_cases hk : k0 = k
    · subst hk
      simp [updAssoc, lookupAssoc, sumEp]
      omega
    · simp only [updAssoc, if_neg hk, lookupAssoc, sumEp, List.map_cons, List.sum_cons] at ih ⊢
      omega

theorem record_totals_inv (s : TollStats) (e : JStr) (paid : Bool) (a : Nat)
    (payer ph : Option JStr) (now : Nat)
    (h1 : s.totalRevenue = sumEp (fun x => x.revenue) s.endpoints)
    (h2 : s.totalPaid = sumEp (fun x => x.paid) s.endpoints)
    (h3 : s.totalRequests = sumEp (fun x => x.paid + x.free) s.endpoints) :
    (s.record e paid a payer ph now).totalRevenue =
        sumEp (fun x => x.revenue) (s.record e paid a payer ph now).endpoints ∧
    (s.record e paid a payer ph now).totalPaid =
        sumEp (fun x => x.paid) (s.record e paid a payer ph now).endpoints ∧
    (s.record e paid a payer ph now).totalRequests =
        sumEp (fun x => x.paid + x.free) (s.record e paid a payer ph now).endpoints := by
  have hrev := sumEp_updAssoc (fun x => x.revenue) rfl s.endpoints e
  have hpaid := sumEp_updAssoc (fun x => x.paid) rfl s.endpoints e
  have hpf := sumEp_updAssoc (fun x => x.paid + x.free) rfl s.endpoints e
  by_cases hc : (paid = true) ∧ 0 < a
  · simp only [TollStats.record, if_pos hc]
    refine ⟨?_, ?_, ?_⟩
    · have := hrev ⟨((lookupAssoc s.endpoints e).getD ⟨0, 0, 0, 0⟩).revenue + a,
        ((lookupAssoc s.endpoints e).getD ⟨0, 0, 0, 0⟩).requests + 1,
        ((lookupAssoc s.endpoints e).getD ⟨0, 0, 0, 0⟩).paid + 1,
        ((lookupAssoc s.endpoints e).getD ⟨0, 0, 0, 0⟩).free⟩
      simp only at this ⊢
      omega
    · have := hpaid ⟨((lookupAssoc s.endpoints e).getD ⟨0, 0, 0, 0⟩).revenue + a,
        ((lookupAssoc s.endpoints e).getD ⟨0, 0, 0, 0⟩).requests + 1,
        ((lookupAssoc s.endpoints e).getD ⟨0, 0, 0, 0⟩).paid + 1,
        ((lookupAssoc s.endpoints e).getD ⟨0, 0, 0, 0⟩).free⟩
      simp only at this ⊢
      omega
    · have := hpf ⟨((lookupAssoc s.endpoints e).getD ⟨0, 0, 0, 0⟩).revenue + a,
        ((lookupAssoc s.endpoints e).getD ⟨0, 0, 0, 0⟩).requests + 1,
        ((lookupAssoc s.endpoints e).getD ⟨0, 0, 0, 0⟩).paid + 1,
        ((lookupAssoc s.endpoints e).getD ⟨0, 0, 0, 0⟩).free⟩
      simp only at this ⊢
      omega
  · simp only [TollStats.record, if_neg hc]
    refine ⟨?_, ?_, ?_⟩
    · have := hrev ⟨((lookupAssoc s.endpoints e).getD ⟨0, 0, 0, 0⟩).revenue,
        ((lookupAssoc s.endpoints e).getD ⟨0, 0, 0, 0⟩).requests + 1,
        ((lookupAssoc s.endpoints e).getD ⟨0, 0, 0, 0⟩).paid,
        ((lookupAssoc s.endpoints e).getD ⟨0, 0, 0, 0⟩).free + 1⟩
      simp only at this ⊢
      omega
    · have := hpaid ⟨((lookupAssoc s.endpoints e).getD ⟨0, 0, 0, 0⟩).revenue,
        ((lookupAssoc s.endpoints e).getD ⟨0, 0, 0, 0⟩).requests + 1,
        ((lookupAssoc s.endpoints e).getD ⟨0, 0, 0, 0⟩).paid,
        ((lookupAssoc s.endpoints e).getD ⟨0, 0, 0, 0⟩).free + 1⟩
      simp only at this ⊢
      omega
    · have := hpf ⟨((lookupAssoc s.endpoints e).getD ⟨0, 0, 0, 0⟩).revenue,
        ((lookupAssoc s.endpoints e).getD ⟨0, 0, 0, 0⟩).requests + 1,
        ((lookupAssoc s.endpoints e).getD ⟨0, 0, 0, 0⟩).paid,
        ((lookupAssoc s.endpoints e).getD ⟨0, 0, 0, 0⟩).free + 1⟩
      simp only at this ⊢
      omega

/-- Claim C8: after any finite sequence of `record` calls from a fresh
`TollStats`, `totalRevenue`, `totalPaid` and `totalRequests` equal the sums
over all endpoints of revenue, paid, and paid + free respectively. -/
theorem C8_stats_totals (maxRecent : Nat) (ops : List RecOp) :
    (runStats maxRecent ops).totalRevenue =
        sumEp (fun x => x.revenue) (runStats maxRecent ops).endpoints ∧
    (runStats maxRecent ops).totalPaid =
        sumEp (fun x => x.paid) (runStats maxRecent ops).endpoints ∧
    (runStats maxRecent ops).totalRequests =
        sumEp (fun x => x.paid + x.free) (runStats maxRecent ops).endpoints := by
  have main : ∀ (l : List RecOp) (s : TollStats),
      (s.totalRevenue = sumEp (fun x => x.revenue) s.endpoints ∧
       s.totalPaid = sumEp (fun x => x.paid) s.endpoints ∧
       s.totalRequests = sumEp (fun x => x.paid + x.free) s.endpoints) →
      ((l.foldl (fun s op => s.record op.endpoint op.paid op.amountSats op.payerId
          op.paymentHash op.now) s).totalRevenue =
        sumEp (fun x => x.revenue) (l.foldl (fun s op => s.record op.endpoint op.paid
          op.amountSats op.payerId op.paymentHash op.now) s).endpoints ∧
       (l.foldl (fun s op => s.record op.endpoint op.paid op.amountSats op.payerId
          op.paymentHash op.now) s).totalPaid =
        sumEp (fun x => x.paid) (l.foldl (fun s op => s.record op.endpoint op.paid
          op.amountSats op.payerId op.paymentHash op.now) s).endpoints ∧
       (l.foldl (fun s op => s.record op.endpoint op.paid op.amountSats op.payerId
          op.paymentHash op.now) s).totalRequests =
        sumEp (fun x => x.paid + x.free) (l.foldl (fun s op => s.record op.endpoint op.paid
          op.amountSats op.payerId op.paymentHash op.now) s).endpoints) := by
    intro l
    induction l with
    | nil => intro s hs; exact hs
    | cons op rest ih =>
      intro s hs
      exact ih _ (record_totals_inv s op.endpoint op.paid op.amountSats op.payerId
        op.paymentHash op.now hs.1 hs.2.1 hs.2.2)
  exact main ops (freshStats maxRecent) (by simp [freshStats, sumEp])

/-- Claim C10: a `record` call with `paid = true` but `amountSats = 0`
takes the free branch: the endpoint free counter and `totalRequests` are
incremented, while `totalPaid`, `totalRevenue`, the payer set and
`recentPayments` are untouched. -/
theorem C10_zero_amount_paid (s : TollStats) (e : JStr) (payer ph : Option JStr) (now : Nat) :
    (s.record e true 0 payer ph now).totalPaid = s.totalPaid ∧
    (s.record e true 0 payer ph now).totalRevenue = s.totalRevenue ∧
    (s.record e true 0 payer ph now).payers = s.payers ∧
    (s.record e true 0 payer ph now).recentPayments = s.recentPayments ∧
    (s.record e true 0 payer ph now).totalRequests = s.totalRequests + 1 ∧
    lookupAssoc (s.record e true 0 payer ph now).endpoints e =
      some ⟨((lookupAssoc s.endpoints e).getD ⟨0, 0, 0, 0⟩).revenue,
        ((lookupAssoc s.endpoints e).getD ⟨0, 0, 0, 0⟩).requests + 1,
        ((lookupAssoc s.endpoints e).getD ⟨0, 0, 0, 0⟩).paid,
        ((lookupAssoc s.endpoints e).getD ⟨0, 0, 0, 0⟩).free + 1⟩ := by
  simp [TollStats.record, lookupAssoc_updAssoc_self]

/-! ### Trim and scan lemmas for the Authorization parse -/

theorem lowerStr_append (a b : JStr) : lowerStr (a ++ b) = lowerStr a ++ lowerStr b :=
  List.map_append _ a b

theorem trimStr_of_ends (s : JStr)
    (hh : ∀ c, s.head? = some c → isWS c = false)
    (hl : ∀ c, s.getLast? = some c → isWS c = false) : trimStr s = s := by
  unfold trimStr
  have h1 : s.dropWhile isWS = s := by
    cases s with
    | nil => rfl
    | cons c cs => simp [List.dropWhile_cons, hh c rfl]
  rw [h1]
  have h2 : s.reverse.dropWhile isWS = s.reverse := by
    cases hs : s.reverse with
    | nil => rfl
    | cons c cs =>
      have hgl : s.getLast? = some c := by
        rw [← List.head?_reverse, hs]
        rfl
      simp [List.dropWhile_cons, hl c hgl]
  rw [h2, List.reverse_reverse]

theorem takeWhile_append_stop {p : Char → Bool} (c : Char) (rest : JStr) (hc : p c = false) :
    ∀ m : JStr, (∀ x ∈ m, p x = true) → (m ++ c :: rest).takeWhile p = m := by
  intro m
  induction m with
  | nil => intro _; simp [List.takeWhile_cons, hc]
  | cons a m2 ih =>
    intro hm
    simp only [List.cons_append, List.takeWhile_cons, hm a (by simp), if_true,
      List.cons.injEq, true_and]
    exact ih (fun x hx => hm x (by simp [hx]))

theorem trimStr_subset (s : JStr) : ∀ c ∈ trimStr s, c ∈ s := by
  intro c hc
  unfold trimStr at hc
  rw [List.mem_reverse] at hc
  have h1 := (List.dropWhile_sublist (l := (s.dropWhile isWS).reverse) (p := isWS)).mem hc
  rw [List.mem_reverse] at h1
  exact (List.dropWhile_sublist (l := s) (p := isWS)).mem h1

/-- Claim C6 (amended): `parseAuthorization` is a left inverse of challenge
emission for non-empty `m` and `p` where `m` contains no `:`, `m` does not
begin with whitespace and `p` does not end with whitespace (the parse trims
the header and the credential part, so surrounding whitespace is not
returned verbatim); any parsed result has non-empty halves; and a header
without a colon yields none. -/
theorem C6_parseAuthorization :
    (∀ m p : JStr, m ≠ [] → p ≠ [] → (∀ c ∈ m, c ≠ ':') →
      (∀ c, m.head? = some c → isWS c = false) →
      (∀ c, p.getLast? = some c → isWS c = false) →
      parseAuthorization (some ("L402 ".data ++ m ++ ':' :: p)) = some ⟨m, p⟩) ∧
    (∀ h : Option JStr, ∀ r, parseAuthorization h = some r →
      r.macaroon ≠ [] ∧ r.preimage ≠ []) ∧
    (∀ h : JStr, (∀ c ∈ h, c ≠ ':') → parseAuthorization (some h) = none) := by
  refine ⟨?_, ?_, ?_⟩
  · intro m p hm hp hcolon hhead hlast
    obtain ⟨a, m2, rfl⟩ : ∃ a m2, m = a :: m2 := by
      cases m with
      | nil => exact absurd rfl hm
      | cons a m2 => exact ⟨a, m2, rfl⟩
    obtain ⟨b, p2, rfl⟩ : ∃ b p2, p = b :: p2 := by
      cases p with
      | nil => exact absurd rfl hp
      | cons b p2 => exact ⟨b, p2, rfl⟩
    simp only [parseAuthorization]
    have hlast2 : ∀ c, (("L402 ".data ++ (a :: m2) ++ ':' :: b :: p2)).getLast? = some c →
        isWS c = false := by
      intro c hc
      rw [List.getLast?_append_of_ne_nil _ (by simp)] at hc
      rw [show (':' :: b :: p2 : JStr) = [':'] ++ (b :: p2) from rfl] at hc
      rw [List.getLast?_append_of_ne_nil _ (by simp)] at hc
      exact hlast c hc
    have htrim1 : trimStr ("L402 ".data ++ (a :: m2) ++ ':' :: b :: p2) =
        "L402 ".data ++ (a :: m2) ++ ':' :: b :: p2 := by
      apply trimStr_of_ends
      · intro c hc
        have : some 'L' = some c := hc
        cases this
        decide
      · exact hlast2
    rw [htrim1]
    rw [if_neg (by
      simp only [List.isPrefixOf_iff_prefix, List.append_assoc, not_not]
      exact ⟨lowerStr ((a :: m2) ++ ':' :: b :: p2), by rfl⟩)]
    have hdrop : ("L402 ".data ++ (a :: m2) ++ ':' :: b :: p2).drop 5 =
        (a :: m2) ++ ':' :: b :: p2 := by
      rw [List.append_assoc]
      rw [show (5 : Nat) = ("L402 ".data : JStr).length from by decide]
      exact List.drop_left _ _
    rw [hdrop]
    have htrim2 : trimStr ((a :: m2) ++ ':' :: b :: p2) = (a :: m2) ++ ':' :: b :: p2 := by
      apply trimStr_of_ends
      · intro c hc
        have : some a = some c := hc
        cases this
        exact hhead a rfl
      · intro c hc
        rw [List.getLast?_append_of_ne_nil _ (by simp)] at hc
        rw [show (':' :: b :: p2 : JStr) = [':'] ++ (b :: p2) from rfl] at hc
        rw [List.getLast?_append_of_ne_nil _ (by simp)] at hc
        exact hlast c hc
    rw [htrim2]
    have htake : ((a :: m2) ++ ':' :: b :: p2).takeWhile (fun c => c ≠ ':') = a :: m2 :=
      takeWhile_append_stop ':' (b :: p2) (by decide) (a :: m2)
        (fun x hx => by simp [hcolon x hx])
    rw [htake]
    rw [if_neg (by simp)]
    have hdrop2 : ((a :: m2) ++ ':' :: b :: p2).drop ((a :: m2).length + 1) = b :: p2 := by
      rw [show (a :: m2 : JStr).length + 1 = ((a :: m2) ++ [':'] : JStr).length from by simp]
      rw [show ((a :: m2) ++ ':' :: b :: p2 : JStr) = ((a :: m2) ++ [':']) ++ (b :: p2) from
        by simp]
      exact List.drop_left _ _
    rw [hdrop2]
    rw [if_neg (by simp)]
  · intro h r hr
    cases h with
    | none => simp [parseAuthorization] at hr
    | some s =>
      simp only [parseAuthorization] at hr
      split at hr
      · exact absurd hr (by simp)
      · split at hr
        · exact absurd hr (by simp)
        · split at hr
          · exact absurd hr (by simp)
          · rename_i hguard
            cases hr
            simp only [not_or, List.isEmpty_iff] at hguard
            exact ⟨hguard.1, hguard.2⟩
  · intro h hnc
    simp only [parseAuthorization]
    split
    · rfl
    · have hsub : ∀ c ∈ trimStr ((trimStr h).drop 5), c ∈ h := by
        intro c hc
        have h1 := trimStr_subset _ c hc
        have h2 := List.drop_subset 5 (trimStr h) h1
        exact trimStr_subset h c h2
      rw [if_pos]
      rw [takeWhile_eq_self_of_all _ (fun c hc => by simp [hnc c (hsub c hc)])]

/-- Counterexample to claim C6 as stated: `m = " a"` is non-empty and
contains no `:`, yet the parse trims the credential part, so the returned
macaroon half is `"a"`, not `m`. -/
theorem C6_counterexample :
    (" a".data : JStr) ≠ [] ∧ ("b".data : JStr) ≠ [] ∧ (∀ c ∈ (" a".data : JStr), c ≠ ':') ∧
    parseAuthorization (some ("L402 ".data ++ " a".data ++ ':' :: "b".data)) ≠
      some ⟨" a".data, "b".data⟩ := by
  refine ⟨by decide, by decide, by decide, by decide⟩

/-- Witness for the amended claim C6 at a concrete input. -/
theorem C6_witness :
    parseAuthorization (some ("L402 ".data ++ "m1".data ++ ':' :: "p1".data)) =
      some ⟨"m1".data, "p1".data⟩ :=
  C6_parseAuthorization.1 "m1".data "p1".data (by decide) (by decide) (by decide)
    (fun c hc => by
      have h2 : some 'm' = some c := hc
      cases h2
      decide)
    (fun c hc => by
      have h2 : some '1' = some c := hc
      cases h2
      decide)

/-- Claim C7 (amended): `decodeMacaroon` returns a parsed value exactly when
the base64url-decoded text parses as JSON and the parsed value has truthy
`id`, truthy `signature`, and `caveats` an array.  The field TYPES are not
checked: a numeric id or an array of non-string caveats is accepted (see
the counterexample), while well-typed but falsy fields (empty strings) are
rejected.  All failures give `none`; the try/catch means it never throws. -/
theorem C7_decodeMacaroon (raw : JStr) (v : JsValue) :
    decodeMacaroon raw = some v ↔
      (jsonParse ((base64urlDecode raw).map Char.ofNat) = some v ∧
       jsTruthy (getField v "id".data) = true ∧
       jsTruthy (getField v "signature".data) = true ∧
       jsIsArray (getField v "caveats".data) = true) := by
  simp only [decodeMacaroon]
  cases hp : jsonParse ((base64urlDecode raw).map Char.ofNat) with
  | none => simp
  | some w =>
    dsimp only
    by_cases hc : (jsTruthy (getField w "id".data) && jsTruthy (getField w "signature".data)
        && jsIsArray (getField w "caveats".data)) = true
    · rw [if_pos hc]
      simp only [Bool.and_eq_true] at hc
      constructor
      · intro h
        cases h
        exact ⟨rfl, hc.1.1, hc.1.2, hc.2⟩
      · intro h
        rw [Option.some_inj.mp h.1]
    · rw [if_neg hc]
      simp only [Bool.and_eq_true] at hc
      constructor
      · intro h
        cases h
      · intro h
        cases Option.some_inj.mp h.1
        exact absurd ⟨⟨h.2.1, h.2.2.1⟩, h.2.2.2⟩ hc

/-- Counterexample to claim C7 as stated: the payload
`{"id":5,"signature":"a","caveats":[]}` has a numeric id, so it is not "an
object with id of type string", yet `decodeMacaroon` returns it (truthiness
is all the source checks). -/
theorem C7_counterexample :
    decodeMacaroon "eyJpZCI6NSwic2lnbmF0dXJlIjoiYSIsImNhdmVhdHMiOltdfQ".data =
      some (.obj [("id".data, .num 5), ("signature".data, .str "a".data),
        ("caveats".data, .arr [])]) ∧
    getField (.obj [("id".data, .num 5), ("signature".data, .str "a".data),
        ("caveats".data, .arr [])]) "id".data = .num 5 := by
  exact ⟨by rfl, by rfl⟩

/-- Witness for the amended claim C7 at a concrete input (a well-typed
macaroon payload). -/
theorem C7_witness :
    decodeMacaroon "eyJpZCI6ImFiIiwic2lnbmF0dXJlIjoiY2QiLCJjYXZlYXRzIjpbXX0".data =
      some (.obj [("id".data, .str "ab".data), ("signature".data, .str "cd".data),
        ("caveats".data, .arr [])]) :=
  (C7_decodeMacaroon "eyJpZCI6ImFiIiwic2lnbmF0dXJlIjoiY2QiLCJjYXZlYXRzIjpbXX0".data
    (.obj [("id".data, .str "ab".data), ("signature".data, .str "cd".data),
        ("caveats".data, .arr [])])).mpr ⟨by rfl, by rfl, by rfl, by rfl⟩

/-- Claim C9: a request presenting parseable L402 credentials never reads
or mutates the free-tier map and is never admitted as free, whatever the
verification outcome (401, paid admission, or a thrown error). -/
theorem C9_credentialed_frame (cfg : MwConfig) (ro : RouteOpts) (req : MwReq) (fts : FtMap)
    (stats : TollStats) (now : Nat) (walletRes : Except JStr InvoiceResult)
    (creds : L402Creds) (h : parseAuthorization req.authHeader = some creds) :
    (tollMiddleware cfg ro req fts stats now walletRes).2.1 = fts ∧
    ∀ c, (tollMiddleware cfg ro req fts stats now walletRes).1 ≠ .admitFree c := by
  simp only [tollMiddleware, h]
  split
  · exact ⟨rfl, by simp⟩
  · split
    · exact ⟨rfl, by simp⟩
    · split
      · exact ⟨rfl, by simp⟩
      · split_ifs <;> exact ⟨rfl, by simp⟩

/-- Witness for claim C9 at a concrete credentialed request. -/
theorem C9_witness :
    parseAuthorization reqAuthW.authHeader = some ⟨"mm".data, "pp".data⟩ ∧
    ((tollMiddleware cfgW roW reqAuthW [] (freshStats 100) 0
        (.ok ⟨"lnbc1".data, "aa".data⟩)).2.1 = [] ∧
      ∀ c, (tollMiddleware cfgW roW reqAuthW [] (freshStats 100) 0
        (.ok ⟨"lnbc1".data, "aa".data⟩)).1 ≠ .admitFree c) := by
  have hparse : parseAuthorization reqAuthW.authHeader = some ⟨"mm".data, "pp".data⟩ := by
    decide
  exact ⟨hparse, C9_credentialed_frame cfgW roW reqAuthW [] (freshStats 100) 0
    (.ok ⟨"lnbc1".data, "aa".data⟩) ⟨"mm".data, "pp".data⟩ hparse⟩

theorem createMacaroon_id (secret : JStr) (o : MintOpts) (mac : MintedMacaroon)
    (h : createMacaroon secret o = .ok mac) : mac.id = o.paymentHash := by
  simp only [createMacaroon] at h
  split at h
  · cases h
  · split at h
    · cases h
    · cases h
      rfl

/-- Claim C4: whenever the middleware emits a 402 challenge, the challenge
carries a macaroon minted over the payment hash returned by the wallet, the
body's `paymentHash` field equals that payment hash and the minted
macaroon's id, and the same serialized macaroon appears in the
`WWW-Authenticate` header and in the body. -/
theorem C4_challenge_payment_hash (cfg : MwConfig) (ro : RouteOpts) (req : MwReq)
    (fts : FtMap) (stats : TollStats) (now : Nat) (walletRes : Except JStr InvoiceResult)
    (hdr : JStr) (body : ChallengeBody) (fts1 : FtMap) (stats1 : TollStats)
    (h : tollMiddleware cfg ro req fts stats now walletRes =
      (.challenge hdr body, fts1, stats1)) :
    ∃ inv mac, walletRes = .ok inv ∧
      createMacaroon cfg.secret ⟨inv.paymentHash, some (now / 1000 + cfg.macaroonExpiry),
        (if cfg.bindEndpoint then some req.path else none),
        (if cfg.bindMethod then some req.method else none),
        (if cfg.bindIp then some (getClientId req) else none)⟩ = .ok mac ∧
      mac.id = inv.paymentHash ∧
      body.macaroon = mac.raw ∧
      body.paymentHash = inv.paymentHash ∧
      body.invoice = inv.invoice ∧
      hdr = formatChallenge inv.invoice mac.raw := by
  rcases walletRes with e | inv
  · simp only [tollMiddleware] at h
    split at h
    · split at h
      · simp at h
      · split at h
        · simp at h
        · split at h
          · simp at h
          · split_ifs at h <;> simp at h
    · split at h <;> simp at h
  · simp only [tollMiddleware] at h
    split at h
    · split at h
      · simp at h
      · split at h
        · simp at h
        · split at h
          · simp at h
          · split_ifs at h <;> simp at h
    · split at h
      · simp at h
      · split at h
        · simp at h
        · split at h
          · simp at h
          · rename_i mac heq
            simp only [Prod.mk.injEq, MwOutcome.challenge.injEq] at h
            obtain ⟨⟨hh, hb⟩, _, _⟩ := h
            subst hh
            subst hb
            exact ⟨inv, mac, rfl, heq, createMacaroon_id _ _ _ heq, rfl, rfl, rfl, rfl⟩

/-- Witness for claim C4: a concrete unauthenticated request that produces
a 402 challenge whose body payment hash is the wallet's payment hash. -/
theorem C4_witness :
    ∃ hdr body fts1 stats1,
      (tollMiddleware cfgW roW reqW [] (freshStats 100) 0
        (.ok ⟨"lnbc1".data, "aa".data⟩) = (.challenge hdr body, fts1, stats1)) ∧
      body.paymentHash = "aa".data := by
  obtain ⟨inv, mac, hw, hcm, hid, hbm, hbp, hbi, hhdr⟩ :=
    C4_challenge_payment_hash cfgW roW reqW [] (freshStats 100) 0
      (.ok ⟨"lnbc1".data, "aa".data⟩) _ _ _ _ rfl
  cases hw
  exact ⟨_, _, _, _, rfl, hbp⟩

/-! ### Free-tier accountant (claim C5) -/

theorem countWs_append (l1 l2 : List (Nat × Nat)) (w : Nat) :
    countWs (l1 ++ l2) w = countWs l1 w + countWs l2 w := by
  simp [countWs, List.countP_append]

theorem countIn_cons (x : Nat × Nat) (l : List (Nat × Nat)) (a b : Nat) :
    countIn (x :: l) a b = countIn l a b + (if a ≤ x.1 ∧ x.1 ≤ b then 1 else 0) := by
  simp only [countIn, List.countP_cons]
  by_cases h : a ≤ x.1 ∧ x.1 ≤ b <;> simp [h]

theorem admissionsWithin_cons (c2 : JStr) (t : Nat) (r : Bool) (log : List (JStr × Nat × Bool))
    (c : JStr) (a b : Nat) :
    admissionsWithin ((c2, t, r) :: log) c a b =
      admissionsWithin log c a b + (if c2 = c ∧ a ≤ t ∧ t ≤ b ∧ r = true then 1 else 0) := by
  simp only [admissionsWithin, List.countP_cons]
  by_cases h : c2 = c ∧ a ≤ t ∧ t ≤ b ∧ r = true <;> simp [h]

theorem FtInv_mono {fr W : Nat} {c : JStr} {m : FtMap} {L : List (Nat × Nat)} {T T2 : Nat}
    (h : FtInv fr W c m L T) (hT : T ≤ T2) : FtInv fr W c m L T2 := by
  refine ⟨h.absent, ?_, h.bounds, ?_, h.counts, h.pw⟩
  · intro e he
    obtain ⟨h1, h2, h3, h4⟩ := h.present e he
    exact ⟨h1, h2, le_trans h3 hT, h4⟩
  · intro x hx
    exact le_trans (h.timesLe x hx) hT

/-- Fixed-window counters admit at most `fr` requests per window value, and
a length-`W` interval can only meet two window values: elements sharing the
first window value `w0` number at most `countWs L w0`, and all others share
a single later window value. -/
theorem window_two_values_aux (W fr a : Nat) :
    ∀ (L : List (Nat × Nat)) (w0 : Nat),
      L.Pairwise (wsRel W) →
      (∀ x ∈ L, a ≤ x.1 ∧ x.1 ≤ a + W) →
      (∀ x ∈ L, x.2 ≤ x.1 ∧ (x.1 : Int) ≤ x.2 + W) →
      (∀ x ∈ L, x.2 = w0 ∨ (w0 : Int) + W < x.2) →
      (a : Int) ≤ w0 + W →
      (∀ w2, countWs L w2 ≤ fr) →
      L.length ≤ countWs L w0 + fr := by
  intro L
  induction L with
  | nil => intro w0 _ _ _ _ _ _; simp
  | cons x L2 ih =>
    intro w0 hpw hwin hbnd hrel ha hcnt
    have hpw2 := (List.pairwise_cons.mp hpw).2
    have hx := hrel x (by simp)
    rcases hx with hx0 | hx1
    · -- head is in the first window
      have ihr := ih w0 hpw2 (fun y hy => hwin y (by simp [hy]))
        (fun y hy => hbnd y (by simp [hy])) (fun y hy => hrel y (by simp [hy])) ha
        (fun w2 => le_trans (by simp [countWs, List.countP_cons]) (hcnt w2))
      have hcw : countWs (x :: L2) w0 = countWs L2 w0 + 1 := by
        simp [countWs, List.countP_cons, hx0]
      simp only [List.length_cons, hcw]
      omega
    · -- head starts a later window; everything after it shares its window
      have hall : ∀ y ∈ L2, y.2 = x.2 := by
        intro y hy
        have hxy := (List.pairwise_cons.mp hpw).1 y hy
        rcases hxy with heq | hjump
        · exact heq.symm
        · -- a third window would put y outside the interval
          exfalso
          have hyw := hwin y (by simp [hy])
          have hyb := hbnd y (by simp [hy])
          have hxw := hwin x (by simp)
          have hxb := hbnd x (by simp)
          -- w0 + W < x.2 and x.2 + W < y.2 ≤ y.1 ≤ a + W, with a ≤ w0 + W
          have h1 : (a : Int) < x.2 := by omega
          have h2 : (x.2 : Int) + W < y.2 := hjump
          have h3 : (y.2 : Nat) ≤ y.1 := hyb.1
          have h4 : y.1 ≤ a + W := hyw.2
          omega
      have hlen : countWs L2 x.2 = L2.length := by
        simp only [countWs]
        rw [List.countP_eq_length]
        intro y hy
        simp [hall y hy]
      have hcw2 : countWs (x :: L2) x.2 = countWs L2 x.2 + 1 := by
        simp [countWs, List.countP_cons]
      have := hcnt x.2
      rw [hcw2, hlen] at this
      simp only [List.length_cons]
      omega

/-- Within any closed interval of length `W`, a ghost admission list
satisfying the free-tier invariants has at most `2 * fr` elements. -/
theorem countIn_le_two_fr (fr W a : Nat) (L : List (Nat × Nat))
    (hbnd : ∀ x ∈ L, x.2 ≤ x.1 ∧ (x.1 : Int) ≤ x.2 + W)
    (hcnt : ∀ w, countWs L w ≤ fr)
    (hpw : L.Pairwise (wsRel W)) :
    countIn L a (a + W) ≤ 2 * fr := by
  have hsub : (L.filter (fun x => decide (a ≤ x.1 ∧ x.1 ≤ a + W))).Sublist L :=
    List.filter_sublist L
  have hfc : countIn L a (a + W) =
      (L.filter (fun x => decide (a ≤ x.1 ∧ x.1 ≤ a + W))).length := by
    simp [countIn, List.countP_eq_length_filter]
  rw [hfc]
  cases hF : L.filter (fun x => decide (a ≤ x.1 ∧ x.1 ≤ a + W)) with
  | nil => simp
  | cons f0 F2 =>
    have hsub2 : (f0 :: F2).Sublist L := hF ▸ hsub
    have hmem : ∀ x ∈ f0 :: F2, x ∈ L ∧ (a ≤ x.1 ∧ x.1 ≤ a + W) := by
      intro x hx
      have h2 := List.mem_filter.mp (hF ▸ hx)
      refine ⟨h2.1, ?_⟩
      have h3 := h2.2
      simp only [decide_eq_true_eq] at h3
      exact h3
    have hpwF : (f0 :: F2).Pairwise (wsRel W) := hpw.sublist hsub2
    have hcntF : ∀ w, countWs (f0 :: F2) w ≤ fr := by
      intro w
      exact le_trans (List.Sublist.countP_le _ hsub2) (hcnt w)
    have hrelF : ∀ x ∈ f0 :: F2, x.2 = f0.2 ∨ (f0.2 : Int) + W < x.2 := by
      intro x hx
      rcases List.mem_cons.mp hx with rfl | hx2
      · exact Or.inl rfl
      · rcases (List.pairwise_cons.mp hpwF).1 x hx2 with heq | hj
        · exact Or.inl heq.symm
        · exact Or.inr hj
    have haw : (a : Int) ≤ f0.2 + W := by
      have h1 := (hmem f0 (by simp)).2.1
      have h2 := (hbnd f0 (hmem f0 (by simp)).1).2
      omega
    have := window_two_values_aux W fr a (f0 :: F2) f0.2 hpwF
      (fun x hx => (hmem x hx).2)
      (fun x hx => hbnd x (hmem x hx).1)
      hrelF haw hcntF
    have h2 := hcntF f0.2
    omega

/-- Counterexample to claim C5 as stated: with `freeRequests = 2` and a
window of 1000 ms, the calls at times 0, 1000, 1001, 1002 are all admitted
(the window resets at 1001), and three admissions (1000, 1001, 1002) fall
inside the closed interval [1000, 2000] of length `W`. -/
theorem C5_counterexample :
    admissionsWithin (runFreeTier 2 1000 []
        [("c".data, 0), ("c".data, 1000), ("c".data, 1001), ("c".data, 1002)]).2
      "c".data 1000 (1000 + 1000) = 3 ∧ 2 < 3 := by
  exact ⟨by decide, by decide⟩

/-- Ghost simulation of a run of `checkFreeTier` calls: the free-tier
invariant is preserved and the admissions of client `c` are exactly the
ghost records appended along the way. -/
theorem runFreeTier_ghost (fr W : Nat) (hfr : 0 < fr) (c : JStr) :
    ∀ (ts : List (JStr × Nat)) (m : FtMap) (L : List (Nat × Nat)) (T : Nat),
      FtInv fr W c m L T →
      (∀ x ∈ ts, T ≤ x.2) →
      ts.Pairwise (fun x y => x.2 ≤ y.2) →
      ∃ L2 T2, FtInv fr W c (runFreeTier fr W m ts).1 (L ++ L2) T2 ∧
        ∀ a b, admissionsWithin (runFreeTier fr W m ts).2 c a b = countIn L2 a b := by
  have hfr0 : ¬ fr = 0 := by omega
  intro ts
  induction ts with
  | nil =>
    intro m L T hinv _ _
    refine ⟨[], T, by simpa using hinv, ?_⟩
    intro a b
    simp [runFreeTier, admissionsWithin, countIn]
  | cons x rest ih =>
    obtain ⟨c2, t⟩ := x
    intro m L T hinv hfut hpw
    have hTt : T ≤ t := hfut (c2, t) (by simp)
    have hfut2 : ∀ y ∈ rest, t ≤ y.2 := (List.pairwise_cons.mp hpw).1
    have hpw2 : rest.Pairwise (fun x y => x.2 ≤ y.2) := (List.pairwise_cons.mp hpw).2
    by_cases hc2 : c = c2
    · subst hc2
      cases hlk : lookupAssoc m c with
      | none =>
        have hLnil : L = [] := hinv.absent hlk
        subst hLnil
        have hstep : checkFreeTier fr W m c t = (updAssoc m c ⟨1, t⟩, true) := by
          simp [checkFreeTier, hfr0, hlk, hfr]
        have hinv2 : FtInv fr W c (updAssoc m c ⟨1, t⟩) [(t, t)] t := by
          refine ⟨?_, ?_, ?_, ?_, ?_, ?_⟩
          · intro habs; rw [lookupAssoc_updAssoc_self] at habs; cases habs
          · intro e2 he2
            rw [lookupAssoc_updAssoc_self] at he2
            cases he2
            refine ⟨by simp [countWs], hfr, le_refl t, ?_⟩
            intro y hy
            simp only [List.mem_singleton] at hy
            subst hy
            exact Or.inl rfl
          · intro y hy
            simp only [List.mem_singleton] at hy
            subst hy
            exact ⟨le_refl t, by push_cast; omega⟩
          · intro y hy
            simp only [List.mem_singleton] at hy
            subst hy
            exact le_refl t
          · intro w
            exact le_trans (List.countP_le_length _) (by simpa using hfr)
          · simp
        obtain ⟨L2, T2, hinv3, hlog⟩ := ih (updAssoc m c ⟨1, t⟩) [(t, t)] t hinv2 hfut2 hpw2
        refine ⟨(t, t) :: L2, T2, ?_, ?_⟩
        · simp only [runFreeTier, hstep]
          simpa using hinv3
        · intro a b
          simp only [runFreeTier, hstep]
          rw [admissionsWithin_cons, countIn_cons, hlog a b]
          by_cases hw : a ≤ t ∧ t ≤ b
          · simp [hw]
          · simp [hw]
      | some e =>
        obtain ⟨hcnt, hcle, hwsT, hrel⟩ := hinv.present e hlk
        by_cases hreset : (W : Int) < (t : Int) - (e.windowStart : Int)
        · have hstep : checkFreeTier fr W m c t = (updAssoc m c ⟨1, t⟩, true) := by
            simp [checkFreeTier, hfr0, hlk, hreset, hfr]
          have hwslt : (e.windowStart : Int) + W < t := by omega
          have hlt : ∀ y ∈ L, (y.2 : Int) + W < t := by
            intro y hy
            rcases hrel y hy with heq | hj
            · rw [heq]; exact hwslt
            · omega
          have h0 : countWs L t = 0 := by
            simp only [countWs]
            rw [List.countP_eq_zero]
            intro y hy
            have := hlt y hy
            simp only [decide_eq_true_eq]
            omega
          have hinv2 : FtInv fr W c (updAssoc m c ⟨1, t⟩) (L ++ [(t, t)]) t := by
            refine ⟨?_, ?_, ?_, ?_, ?_, ?_⟩
            · intro habs; rw [lookupAssoc_updAssoc_self] at habs; cases habs
            · intro e2 he2
              rw [lookupAssoc_updAssoc_self] at he2
              cases he2
              refine ⟨?_, hfr, le_refl t, ?_⟩
              · rw [countWs_append, h0]
                simp [countWs]
              · intro y hy
                rcases List.mem_append.mp hy with hyL | hy1
                · exact Or.inr (hlt y hyL)
                · simp only [List.mem_singleton] at hy1
                  subst hy1
                  exact Or.inl rfl
            · intro y hy
              rcases List.mem_append.mp hy with hyL | hy1
              · exact hinv.bounds y hyL
              · simp only [List.mem_singleton] at hy1
                subst hy1
                exact ⟨le_refl t, by push_cast; omega⟩
            · intro y hy
              rcases List.mem_append.mp hy with hyL | hy1
              · exact le_trans (hinv.timesLe y hyL) hTt
              · simp only [List.mem_singleton] at hy1
                subst hy1
                exact le_refl t
            · intro w
              rw [countWs_append]
              by_cases hwt : w = t
              · subst hwt
                rw [h0]
                simpa [countWs] using hfr
              · have hz : countWs [(t, t)] w = 0 := by
                  simp [countWs]
                  omega
                rw [hz]
                simpa using hinv.counts w
            · rw [List.pairwise_append]
              refine ⟨hinv.pw, by simp, ?_⟩
              intro y hyL z hz1
              simp only [List.mem_singleton] at hz1
              subst hz1
              exact Or.inr (hlt y hyL)
          obtain ⟨L2, T2, hinv3, hlog⟩ :=
            ih (updAssoc m c ⟨1, t⟩) (L ++ [(t, t)]) t hinv2 hfut2 hpw2
          refine ⟨(t, t) :: L2, T2, ?_, ?_⟩
          · simp only [runFreeTier, hstep]
            rw [show L ++ (t, t) :: L2 = (L ++ [(t, t)]) ++ L2 by simp]
            exact hinv3
          · intro a b
            simp only [runFreeTier, hstep]
            rw [admissionsWithin_cons, countIn_cons, hlog a b]
            by_cases hw : a ≤ t ∧ t ≤ b
            · simp [hw]
            · simp [hw]
        · by_cases hcnt2 : e.count < fr
          · have hstep : checkFreeTier fr W m c t =
                (updAssoc m c ⟨e.count + 1, e.windowStart⟩, true) := by
              simp [checkFreeTier, hfr0, hlk, hreset, hcnt2]
            have hbt : (t : Int) ≤ e.windowStart + W := by omega
            have hinv2 : FtInv fr W c (updAssoc m c ⟨e.count + 1, e.windowStart⟩)
                (L ++ [(t, e.windowStart)]) t := by
              refine ⟨?_, ?_, ?_, ?_, ?_, ?_⟩
              · intro habs; rw [lookupAssoc_updAssoc_self] at habs; cases habs
              · intro e2 he2
                rw [lookupAssoc_updAssoc_self] at he2
                cases he2
                refine ⟨?_, hcnt2, le_trans hwsT hTt, ?_⟩
                · rw [countWs_append, ← hcnt]
                  simp [countWs]
                · intro y hy
                  rcases List.mem_append.mp hy with hyL | hy1
                  · exact hrel y hyL
                  · simp only [List.mem_singleton] at hy1
                    subst hy1
                    exact Or.inl rfl
              · intro y hy
                rcases List.mem_append.mp hy with hyL | hy1
                · exact hinv.bounds y hyL
                · simp only [List.mem_singleton] at hy1
                  subst hy1
                  exact ⟨le_trans hwsT hTt, hbt⟩
              · intro y hy
                rcases List.mem_append.mp hy with hyL | hy1
                · exact le_trans (hinv.timesLe y hyL) hTt
                · simp only [List.mem_singleton] at hy1
                  subst hy1
                  exact le_refl t
              · intro w
                rw [countWs_append]
                by_cases hwt : w = e.windowStart
                · subst hwt
                  have : countWs [(t, e.windowStart)] e.windowStart = 1 := by
                    simp [countWs]
                  rw [this, ← hcnt]
                  omega
                · have hz : countWs [(t, e.windowStart)] w = 0 := by
                    simp [countWs]
                    omega
                  rw [hz]
                  simpa using hinv.counts w
              · rw [List.pairwise_append]
                refine ⟨hinv.pw, by simp, ?_⟩
                intro y hyL z hz1
                simp only [List.mem_singleton] at hz1
                subst hz1
                exact hrel y hyL
            obtain ⟨L2, T2, hinv3, hlog⟩ :=
              ih (updAssoc m c ⟨e.count + 1, e.windowStart⟩) (L ++ [(t, e.windowStart)]) t
                hinv2 hfut2 hpw2
            refine ⟨(t, e.windowStart) :: L2, T2, ?_, ?_⟩
            · simp only [runFreeTier, hstep]
              rw [show L ++ (t, e.windowStart) :: L2 = (L ++ [(t, e.windowStart)]) ++ L2
                by simp]
              exact hinv3
            · intro a b
              simp only [runFreeTier, hstep]
              rw [admissionsWithin_cons, countIn_cons, hlog a b]
              by_cases hw : a ≤ t ∧ t ≤ b
              · simp [hw]
              · simp [hw]
          · have hupd : updAssoc m c e = m := updAssoc_lookup_self m c e hlk
            have hstep : checkFreeTier fr W m c t = (m, false) := by
              simp [checkFreeTier, hfr0, hlk, hreset, hcnt2, hupd]
            obtain ⟨L2, T2, hinv3, hlog⟩ := ih m L t (FtInv_mono hinv hTt) hfut2 hpw2
            refine ⟨L2, T2, ?_, ?_⟩
            · simp only [runFreeTier, hstep]
              exact hinv3
            · intro a b
              simp only [runFreeTier, hstep]
              rw [admissionsWithin_cons, hlog a b]
              simp
    · have hm1 : lookupAssoc (checkFreeTier fr W m c2 t).1 c = lookupAssoc m c := by
        simp only [checkFreeTier, if_neg hfr0]
        split <;> exact lookupAssoc_updAssoc_ne _ _ _ _ hc2
      have hinv2 : FtInv fr W c (checkFreeTier fr W m c2 t).1 L t := by
        refine ⟨?_, ?_, hinv.bounds, ?_, hinv.counts, hinv.pw⟩
        · rw [hm1]; exact hinv.absent
        · rw [hm1]
          intro e he
          obtain ⟨h1, h2, h3, h4⟩ := hinv.present e he
          exact ⟨h1, h2, le_trans h3 hTt, h4⟩
        · intro y hy
          exact le_trans (hinv.timesLe y hy) hTt
      obtain ⟨L2, T2, hinv3, hlog⟩ := ih (checkFreeTier fr W m c2 t).1 L t hinv2 hfut2 hpw2
      refine ⟨L2, T2, ?_, ?_⟩
      · simp only [runFreeTier]
        exact hinv3
      · intro a b
        simp only [runFreeTier]
        rw [admissionsWithin_cons, hlog a b]
        have hne : ¬ (c2 = c) := fun h => hc2 h.symm
        simp [hne]

theorem runFreeTier_zero (W : Nat) (c : JStr) (a b : Nat) :
    ∀ (ts : List (JStr × Nat)) (m : FtMap),
      admissionsWithin (runFreeTier 0 W m ts).2 c a b = 0 := by
  intro ts
  induction ts with
  | nil => intro m; simp [runFreeTier, admissionsWithin]
  | cons x rest ih =>
    intro m
    obtain ⟨c2, t⟩ := x
    have hstep : checkFreeTier 0 W m c2 t = (m, false) := by simp [checkFreeTier]
    simp only [runFreeTier, hstep]
    rw [admissionsWithin_cons, ih m]
    simp

/-- Claim C5 (amended): `checkFreeTier` is a fixed-window counter, so
within any closed interval of length `W` a client receives at most
`2 * freeRequests` admissions (at most `freeRequests` per counter window,
and an interval of length `W` can overlap two windows).  The stated bound
of `freeRequests` admissions per sliding interval does not hold (see the
counterexample). -/
theorem C5_free_tier_window_bound (fr W : Nat) (ts : List (JStr × Nat)) (c : JStr) (a : Nat)
    (hsorted : ts.Pairwise (fun x y => x.2 ≤ y.2)) :
    admissionsWithin (runFreeTier fr W [] ts).2 c a (a + W) ≤ 2 * fr := by
  rcases Nat.eq_zero_or_pos fr with hfr | hfr
  · subst hfr
    rw [runFreeTier_zero]
  · have hinv0 : FtInv fr W c [] [] 0 := by
      refine ⟨fun _ => rfl, ?_, ?_, ?_, ?_, ?_⟩
      · intro e he
        simp [lookupAssoc] at he
      · intro x hx
        cases hx
      · intro x hx
        cases hx
      · intro w
        simp [countWs]
      · simp
    obtain ⟨L2, T2, hinv, hlog⟩ := runFreeTier_ghost fr W hfr c ts [] [] 0 hinv0
      (fun x _ => Nat.zero_le _) hsorted
    rw [hlog a (a + W)]
    have hb := hinv.bounds
    have hcnt := hinv.counts
    have hpw := hinv.pw
    simp only [List.nil_append] at hb hcnt hpw
    exact countIn_le_two_fr fr W a L2 hb hcnt hpw

/-- Witness for the amended claim C5 on the counterexample trace: three
admissions fall in the interval, within the proved bound of four. -/
theorem C5_witness :
    ([(("c".data : JStr), 0), ("c".data, 1000), ("c".data, 1001),
      ("c".data, 1002)].Pairwise (fun x y => x.2 ≤ y.2)) ∧
    admissionsWithin (runFreeTier 2 1000 []
        [("c".data, 0), ("c".data, 1000), ("c".data, 1001), ("c".data, 1002)]).2
      "c".data 1000 (1000 + 1000) ≤ 2 * 2 := by
  have hs : ([(("c".data : JStr), 0), ("c".data, 1000), ("c".data, 1001),
      ("c".data, 1002)].Pairwise (fun x y => x.2 ≤ y.2)) := by decide
  exact ⟨hs, C5_free_tier_window_bound 2 1000 _ "c".data 1000 hs⟩
